import Mathlib

/-!
SudokuSolver: validator and backtracking solver

A shallow embedding of `src/main.go` (`isSudokuSolved`, `solveSudoku` and their
closures `isValidSet`, `findEmpty`, `isValid`) together with the properties
stated in the specification.

Modelling conventions

* A Go `[][]int` is a `List (List Int)`.  Cell values are only ever compared,
  never added or multiplied, so `Int` stands for the 64-bit `int` exactly.
* An index expression `sudoku[row][col]` that would be out of range is the
  value `none`; every function that reads the grid therefore returns an
  `Option`, and `none` means "no result" (a run-time fault, or, for the
  solver, exhausted recursion fuel).
* The in-place mutation of the grid by `solveSudoku` is explicit state
  passing: the solver returns the boolean together with the grid it leaves.
* `for` loops with an early `return` are recursive functions over the list of
  index values the loop runs through, in the order the loop visits them.
-/

namespace SudokuSolver

/-- The Go type `[][]int`. -/
abbrev Grid := List (List Int)

/-- The index expression `sudoku[row][col]`; `none` is the out-of-range fault. -/
def getCell (sudoku : Grid) (row col : Nat) : Option Int :=
  match sudoku[row]? with
  | none => none
  | some r => r[col]?

/-- The assignment `sudoku[row][col] = num`; `none` is the out-of-range fault. -/
def setCell (sudoku : Grid) (row col : Nat) (num : Int) : Option Grid :=
  match sudoku[row]? with
  | none => none
  | some r => if col < r.length then some (sudoku.set row (r.set col num)) else none

/-! ## `isSudokuSolved` (main.go lines 16-63) -/

/-- The loop body of `isValidSet` (lines 20-25); `seen` is the Go map
`map[int]bool`, whose lookup of an absent key is `false`. -/
def isValidSetLoop : (Int → Bool) → List Int → Bool
  | _, [] => true
  | seen, num :: rest =>
    if num < 1 || num > 9 || seen num then false
    else isValidSetLoop (fun k => if k = num then true else seen k) rest

/-- The closure `isValidSet` (lines 18-27). -/
def isValidSet (nums : List Int) : Bool :=
  isValidSetLoop (fun _ => false) nums

/-- Reads the cells at the given positions, in order, into a fresh slice. -/
def readCells (sudoku : Grid) : List (Nat × Nat) → Option (List Int)
  | [] => some []
  | (row, col) :: rest =>
    match getCell sudoku row col with
    | none => none
    | some v =>
      match readCells sudoku rest with
      | none => none
      | some vs => some (v :: vs)

/-- Positions visited by `for row := 0; row < 9; row++` at a fixed `col`
(lines 39-41). -/
def columnCells (col : Nat) : List (Nat × Nat) :=
  (List.range 9).map (fun row => (row, col))

/-- Positions visited by the two nested loops of lines 51-55 (and 94-100):
`row` from `startRow` to `startRow+2`, `col` from `startCol` to `startCol+2`. -/
def subgridCells (startRow startCol : Nat) : List (Nat × Nat) :=
  (List.range' startRow 3).flatMap (fun row => (List.range' startCol 3).map (fun col => (row, col)))

/-- The row loop, lines 30-34: `for _, row := range sudoku`. -/
def rowsValid : Grid → Bool
  | [] => true
  | row :: rest => if !isValidSet row then false else rowsValid rest

/-- The column loop, lines 37-45, over the remaining values of `col`. -/
def columnsValid (sudoku : Grid) : List Nat → Option Bool
  | [] => some true
  | col :: rest =>
    match readCells sudoku (columnCells col) with
    | none => none
    | some column => if !isValidSet column then some false else columnsValid sudoku rest

/-- The box loops, lines 48-60, over the remaining `(startRow, startCol)`. -/
def subgridsValid (sudoku : Grid) : List (Nat × Nat) → Option Bool
  | [] => some true
  | (startRow, startCol) :: rest =>
    match readCells sudoku (subgridCells startRow startCol) with
    | none => none
    | some subgrid => if !isValidSet subgrid then some false else subgridsValid sudoku rest

/-- Values of `(startRow, startCol)` in the order of the loops of lines 48-49
(`startRow += 3`, `startCol += 3`). -/
def subgridStarts : List (Nat × Nat) :=
  [0, 3, 6].flatMap (fun startRow => [0, 3, 6].map (fun startCol => (startRow, startCol)))

/-- The function `isSudokuSolved` (lines 16-63). -/
def isSudokuSolved (sudoku : Grid) : Option Bool :=
  if !rowsValid sudoku then some false
  else
    match columnsValid sudoku (List.range 9) with
    | none => none
    | some false => some false
    | some true => subgridsValid sudoku subgridStarts

/-! ## `solveSudoku` (main.go lines 66-120) -/

/-- All positions in the order of the loops of `findEmpty` (lines 69-70):
row-major. -/
def allCells : List (Nat × Nat) :=
  (List.range 9).flatMap (fun row => (List.range 9).map (fun col => (row, col)))

/-- The scan of `findEmpty` over the remaining positions. -/
def findEmptyLoop (sudoku : Grid) : List (Nat × Nat) → Option (Option (Nat × Nat))
  | [] => some none
  | (row, col) :: rest =>
    match getCell sudoku row col with
    | none => none
    | some v => if v = 0 then some (some (row, col)) else findEmptyLoop sudoku rest

/-- The closure `findEmpty` (lines 68-77).  The Go result `(row, col, true)` is
`some (some (row, col))`, the result `(-1, -1, false)` is `some none`. -/
def findEmpty (sudoku : Grid) : Option (Option (Nat × Nat)) :=
  findEmptyLoop sudoku allCells

/-- One scanning loop of `isValid`: `false` at the first position holding
`num`, `true` when the loop runs to its end. -/
def noneEquals (sudoku : Grid) (num : Int) : List (Nat × Nat) → Option Bool
  | [] => some true
  | (row, col) :: rest =>
    match getCell sudoku row col with
    | none => none
    | some v => if v = num then some false else noneEquals sudoku num rest

/-- Positions visited by `for x := 0; x < 9; x++` reading `sudoku[row][x]`
(lines 81-85). -/
def rowCells (row : Nat) : List (Nat × Nat) :=
  (List.range 9).map (fun x => (row, x))

/-- The closure `isValid` (lines 79-102). -/
def isValid (sudoku : Grid) (row col : Nat) (num : Int) : Option Bool :=
  match noneEquals sudoku num (rowCells row) with
  | none => none
  | some false => some false
  | some true =>
    match noneEquals sudoku num (columnCells col) with
    | none => none
    | some false => some false
    | some true => noneEquals sudoku num (subgridCells ((row / 3) * 3) ((col / 3) * 3))

/-- The candidate loop of lines 109-117 over the remaining values of `num`;
`recur` is the recursive call `solveSudoku(sudoku)` of line 112.  When the
loop runs to its end the function returns `false` (line 119). -/
def tryCandidates (recur : Grid → Option (Bool × Grid)) (row col : Nat) :
    List Int → Grid → Option (Bool × Grid)
  | [], sudoku => some (false, sudoku)
  | num :: rest, sudoku =>
    match isValid sudoku row col num with
    | none => none
    | some false => tryCandidates recur row col rest sudoku
    | some true =>
      match setCell sudoku row col num with
      | none => none
      | some placed =>
        match recur placed with
        | none => none
        | some (true, solved) => some (true, solved)
        | some (false, back) =>
          match setCell back row col 0 with
          | none => none
          | some cleared => tryCandidates recur row col rest cleared

/-- Values of `num` in `for num := 1; num <= 9; num++`. -/
def candidates : List Int := [1, 2, 3, 4, 5, 6, 7, 8, 9]

/-- The body of `solveSudoku` with a bound on the depth of the recursion:
`none` when the bound is used up or an index is out of range, otherwise the
returned boolean and the grid left behind. -/
def solveFuel : Nat → Grid → Option (Bool × Grid)
  | 0, _ => none
  | fuel + 1, sudoku =>
    match findEmpty sudoku with
    | none => none
    | some none => some (true, sudoku)
    | some (some (row, col)) => tryCandidates (solveFuel fuel) row col candidates sudoku

/-- Number of positions of the grid that hold `0`. -/
def countEmpty (sudoku : Grid) : Nat :=
  allCells.countP (fun p => getCell sudoku p.1 p.2 == some 0)

/-- The function `solveSudoku` (lines 66-120): every recursive call is made
after an empty cell has been filled, so a depth of one more than the number of
empty cells is never used up (theorem `solveFuel_total` and
`solveFuel_mono`). -/
def solveSudoku (sudoku : Grid) : Option (Bool × Grid) :=
  solveFuel (countEmpty sudoku + 1) sudoku

/-! ## `sudokuHandler` (main.go lines 130-191) -/

/-- What `sudokuHandler` writes to its `http.ResponseWriter`. -/
inductive Response where
  | error (code : Nat) (msg : String)
  | json (message : String) (solved : Bool) (status : String) (solution : Option Grid)
  deriving DecidableEq

/-- The loop of lines 149-154: `true` when it runs to its end, `false` when it
meets a row whose length is not 9. -/
def rowLengthsOk : Grid → Bool
  | [] => true
  | row :: rest => if row.length ≠ 9 then false else rowLengthsOk rest

/-- The copy of lines 163-167: each row of the request is copied into a fresh
row of 9 cells (`make([]int, 9)` is nine zeros, `copy` fills it up to the
shorter of the two lengths). -/
def copyGrid (sudoku : Grid) : Grid :=
  sudoku.map (fun row => (row ++ List.replicate 9 0).take 9)

/-- The body of `sudokuHandler` with the two functions it calls as parameters:
`validator` stands for `isSudokuSolved` and `solver` for `solveSudoku`.
`method` is `r.Method`, `decoded` is the result of decoding the request body
into `request.Sudoku` (`none` when `Decode` returns an error).  The codes are
`http.StatusMethodNotAllowed` = 405 and `http.StatusBadRequest` = 400; a
`Response.json` is sent with status 200, and its `solution` is `none` when the
map has no key "solution". -/
def sudokuHandlerWith (validator : Grid → Option Bool)
    (solver : Grid → Option (Bool × Grid)) (method : String) (decoded : Option Grid) :
    Option Response :=
  if method ≠ "POST" then some (Response.error 405 "Método no permitido")
  else
    match decoded with
    | none => some (Response.error 400 "Error al procesar el JSON")
    | some sudoku =>
      if sudoku.length ≠ 9 then
        some (Response.error 400 "La matriz debe tener exactamente 9 filas")
      else if !rowLengthsOk sudoku then
        some (Response.error 400 "Cada fila de la matriz debe tener exactamente 9 columnas")
      else
        match validator sudoku with
        | none => none
        | some true =>
          some (Response.json "Validación de Sudoku completada" true "Sudoku solucionado" none)
        | some false =>
          match solver (copyGrid sudoku) with
          | none => none
          | some (true, solution) =>
            some (Response.json "Validación de Sudoku completada" false
              "Sudoku no solucionado, solución generada" (some solution))
          | some (false, _) =>
            some (Response.json "Validación de Sudoku completada" false
              "Sudoku no solucionado, sin solución válida" none)

/-- The function `sudokuHandler` (lines 130-191). -/
def sudokuHandler (method : String) (decoded : Option Grid) : Option Response :=
  sudokuHandlerWith isSudokuSolved solveSudoku method decoded

/-! ## Vocabulary of the specification -/

/-- Well-formed input: exactly 9 rows of exactly 9 cells. -/
def WF (g : Grid) : Prop :=
  g.length = 9 ∧ ∀ row ∈ g, row.length = 9

instance (g : Grid) : Decidable (WF g) := by
  unfold WF; infer_instance

/-- The value of a cell, `0` where the position does not exist. -/
def cell (g : Grid) (row col : Nat) : Int :=
  (getCell g row col).getD 0

/-- Row `r` as a unit: its cells from column 0 to column 8. -/
def unitRow (g : Grid) (r : Nat) : List Int :=
  (List.range 9).map (fun c => cell g r c)

/-- Column `c` as a unit: its cells from row 0 to row 8. -/
def unitColumn (g : Grid) (c : Nat) : List Int :=
  (List.range 9).map (fun r => cell g r c)

/-- The 3x3 box with top-left corner `(sr, sc)` as a unit, row by row. -/
def unitBox (g : Grid) (sr sc : Nat) : List Int :=
  (List.range 3).flatMap (fun i => (List.range 3).map (fun j => cell g (sr + i) (sc + j)))

/-- All 27 units of a grid pass the unit check. -/
def AllUnitsValid (g : Grid) : Prop :=
  (∀ r, r < 9 → isValidSet (unitRow g r) = true) ∧
  (∀ c, c < 9 → isValidSet (unitColumn g c) = true) ∧
  (∀ br, br < 3 → ∀ bc, bc < 3 → isValidSet (unitBox g (3 * br) (3 * bc)) = true)

instance (g : Grid) : Decidable (AllUnitsValid g) := by
  unfold AllUnitsValid; infer_instance

/-- Two positions share a row, a column or a 3x3 box. -/
def SameUnit (r1 c1 r2 c2 : Nat) : Prop :=
  r1 = r2 ∨ c1 = c2 ∨ (r1 / 3 = r2 / 3 ∧ c1 / 3 = c2 / 3)

instance (r1 c1 r2 c2 : Nat) : Decidable (SameUnit r1 c1 r2 c2) := by
  unfold SameUnit; infer_instance

/-- Every cell holds a digit 1-9 and no two cells of a unit hold the same. -/
def Solved (g : Grid) : Prop :=
  (∀ r, r < 9 → ∀ c, c < 9 → 1 ≤ cell g r c ∧ cell g r c ≤ 9) ∧
  (∀ r1, r1 < 9 → ∀ c1, c1 < 9 → ∀ r2, r2 < 9 → ∀ c2, c2 < 9 →
    SameUnit r1 c1 r2 c2 → cell g r1 c1 = cell g r2 c2 → r1 = r2 ∧ c1 = c2)

/-- No cell of the grid is empty. -/
def Full (g : Grid) : Prop :=
  ∀ r, r < 9 → ∀ c, c < 9 → cell g r c ≠ 0

instance (g : Grid) : Decidable (Full g) := by
  unfold Full; infer_instance

/-- The digit `n` occurs nowhere in the row, the column and the box of `(r, c)`. -/
def Free (g : Grid) (r c : Nat) (n : Int) : Prop :=
  ∀ r2, r2 < 9 → ∀ c2, c2 < 9 → SameUnit r c r2 c2 → cell g r2 c2 ≠ n

instance (g : Grid) (r c : Nat) (n : Int) : Decidable (Free g r c n) := by
  unfold Free; infer_instance

/-- Every placed value is a digit 1-9 and no digit is placed twice in a unit. -/
def Consistent (g : Grid) : Prop :=
  (∀ r, r < 9 → ∀ c, c < 9 → cell g r c ≠ 0 → 1 ≤ cell g r c ∧ cell g r c ≤ 9) ∧
  (∀ r1, r1 < 9 → ∀ c1, c1 < 9 → ∀ r2, r2 < 9 → ∀ c2, c2 < 9 →
    SameUnit r1 c1 r2 c2 → cell g r1 c1 ≠ 0 → cell g r1 c1 = cell g r2 c2 → r1 = r2 ∧ c1 = c2)

set_option synthInstance.maxSize 1024 in
set_option synthInstance.maxHeartbeats 200000 in
instance (g : Grid) : Decidable (Consistent g) := by
  unfold Consistent; infer_instance

/-- The grid `s` agrees with `g` on every non-empty cell of `g`. -/
def Extends (g s : Grid) : Prop :=
  ∀ r, r < 9 → ∀ c, c < 9 → cell g r c ≠ 0 → cell s r c = cell g r c

instance (g s : Grid) : Decidable (Extends g s) := by
  unfold Extends; infer_instance

/-- The relation between the grid `g` a call starts from, the boolean `b` it
returns and the grid `g2` it leaves. -/
def SolveSpec (g : Grid) (b : Bool) (g2 : Grid) : Prop :=
  WF g2 ∧ (b = false → g2 = g) ∧ (b = true → Full g2) ∧ Extends g g2 ∧
  (b = true → Consistent g → Consistent g2)

/-- Some unit holds the same digit 1-9 in two different cells. -/
def HasConflict (g : Grid) : Prop :=
  ∃ r1 c1 r2 c2, (r1 < 9 ∧ c1 < 9 ∧ r2 < 9 ∧ c2 < 9) ∧ (r1 ≠ r2 ∨ c1 ≠ c2) ∧
    SameUnit r1 c1 r2 c2 ∧ (1 ≤ cell g r1 c1 ∧ cell g r1 c1 ≤ 9) ∧ cell g r1 c1 = cell g r2 c2

/-- The position `(r2, c2)` comes before `(r, c)` in row-major order. -/
def RowMajorBefore (r2 c2 r c : Nat) : Prop :=
  r2 < r ∨ (r2 = r ∧ c2 < c)

instance (r2 c2 r c : Nat) : Decidable (RowMajorBefore r2 c2 r c) := by
  unfold RowMajorBefore; infer_instance

/-- The grid `a` is at most the grid `b` in the lexicographic order of their
cells taken in row-major order: they are equal cell for cell, or at the first
position where they differ the cell of `a` is the smaller one. -/
def LexLE (a b : Grid) : Prop :=
  (∀ r, r < 9 → ∀ c, c < 9 → cell a r c = cell b r c) ∨
  ∃ r c, r < 9 ∧ c < 9 ∧ cell a r c < cell b r c ∧
    ∀ r2, r2 < 9 → ∀ c2, c2 < 9 → RowMajorBefore r2 c2 r c → cell a r2 c2 = cell b r2 c2

/-! ## Concrete grids -/

/-- The grid whose 81 cells are all empty. -/
def emptyGrid : Grid :=
  List.replicate 9 (List.replicate 9 0)

/-- A correctly solved grid. -/
def solvedGrid : Grid :=
  [[5, 3, 4, 6, 7, 8, 9, 1, 2],
   [6, 7, 2, 1, 9, 5, 3, 4, 8],
   [1, 9, 8, 3, 4, 2, 5, 6, 7],
   [8, 5, 9, 7, 6, 1, 4, 2, 3],
   [4, 2, 6, 8, 5, 3, 7, 9, 1],
   [7, 1, 3, 9, 2, 4, 8, 5, 6],
   [9, 6, 1, 5, 3, 7, 2, 8, 4],
   [2, 8, 7, 4, 1, 9, 6, 3, 5],
   [3, 4, 5, 2, 8, 6, 1, 7, 9]]

/-- The grid `solvedGrid` with the cell at row 0, column 0 emptied. -/
def oneHoleGrid : Grid :=
  [[0, 3, 4, 6, 7, 8, 9, 1, 2],
   [6, 7, 2, 1, 9, 5, 3, 4, 8],
   [1, 9, 8, 3, 4, 2, 5, 6, 7],
   [8, 5, 9, 7, 6, 1, 4, 2, 3],
   [4, 2, 6, 8, 5, 3, 7, 9, 1],
   [7, 1, 3, 9, 2, 4, 8, 5, 6],
   [9, 6, 1, 5, 3, 7, 2, 8, 4],
   [2, 8, 7, 4, 1, 9, 6, 3, 5],
   [3, 4, 5, 2, 8, 6, 1, 7, 9]]

/-- The grid `solvedGrid` with the cells at (0,0) and (8,8) emptied. -/
def twoHoleGrid : Grid :=
  [[0, 3, 4, 6, 7, 8, 9, 1, 2],
   [6, 7, 2, 1, 9, 5, 3, 4, 8],
   [1, 9, 8, 3, 4, 2, 5, 6, 7],
   [8, 5, 9, 7, 6, 1, 4, 2, 3],
   [4, 2, 6, 8, 5, 3, 7, 9, 1],
   [7, 1, 3, 9, 2, 4, 8, 5, 6],
   [9, 6, 1, 5, 3, 7, 2, 8, 4],
   [2, 8, 7, 4, 1, 9, 6, 3, 5],
   [3, 4, 5, 2, 8, 6, 1, 7, 0]]

/-- Row 0 holds the digit 5 twice, at columns 0 and 1, and the cell (8,8) is
empty: the other cells are those of `solvedGrid`. -/
def conflictGrid : Grid :=
  [[5, 5, 4, 6, 7, 8, 9, 1, 2],
   [6, 7, 2, 1, 9, 5, 3, 4, 8],
   [1, 9, 8, 3, 4, 2, 5, 6, 7],
   [8, 5, 9, 7, 6, 1, 4, 2, 3],
   [4, 2, 6, 8, 5, 3, 7, 9, 1],
   [7, 1, 3, 9, 2, 4, 8, 5, 6],
   [9, 6, 1, 5, 3, 7, 2, 8, 4],
   [2, 8, 7, 4, 1, 9, 6, 3, 5],
   [3, 4, 5, 2, 8, 6, 1, 7, 0]]

/-- The grid the solver leaves when started on `conflictGrid`. -/
def conflictFilled : Grid :=
  [[5, 5, 4, 6, 7, 8, 9, 1, 2],
   [6, 7, 2, 1, 9, 5, 3, 4, 8],
   [1, 9, 8, 3, 4, 2, 5, 6, 7],
   [8, 5, 9, 7, 6, 1, 4, 2, 3],
   [4, 2, 6, 8, 5, 3, 7, 9, 1],
   [7, 1, 3, 9, 2, 4, 8, 5, 6],
   [9, 6, 1, 5, 3, 7, 2, 8, 4],
   [2, 8, 7, 4, 1, 9, 6, 3, 5],
   [3, 4, 5, 2, 8, 6, 1, 7, 9]]

/-- The cells (0,0) and (8,8) are empty and column 8 already holds a 9 (at row
7), the only digit missing from row 8: the solver places 5 at (0,0), fails at
(8,8), and backtracks. -/
def deadEndGrid : Grid :=
  [[0, 3, 4, 6, 7, 8, 9, 1, 2],
   [6, 7, 2, 1, 9, 5, 3, 4, 8],
   [1, 9, 8, 3, 4, 2, 5, 6, 7],
   [8, 5, 9, 7, 6, 1, 4, 2, 3],
   [4, 2, 6, 8, 5, 3, 7, 9, 1],
   [7, 1, 3, 9, 2, 4, 8, 5, 6],
   [9, 6, 1, 5, 3, 7, 2, 8, 4],
   [2, 8, 7, 4, 1, 9, 6, 3, 9],
   [3, 4, 5, 2, 8, 6, 1, 7, 0]]

/-- A grid without empty cell that is not a solution: every cell holds 5. -/
def allFives : Grid :=
  List.replicate 9 (List.replicate 9 5)

/-- The grid `solvedGrid` with the cells (3,5), (3,8), (4,5) and (4,8) emptied:
they hold 1, 3 / 3, 1 in `solvedGrid` and may also be filled with 3, 1 / 1, 3. -/
def fourHoleGrid : Grid :=
  [[5, 3, 4, 6, 7, 8, 9, 1, 2],
   [6, 7, 2, 1, 9, 5, 3, 4, 8],
   [1, 9, 8, 3, 4, 2, 5, 6, 7],
   [8, 5, 9, 7, 6, 0, 4, 2, 0],
   [4, 2, 6, 8, 5, 0, 7, 9, 0],
   [7, 1, 3, 9, 2, 4, 8, 5, 6],
   [9, 6, 1, 5, 3, 7, 2, 8, 4],
   [2, 8, 7, 4, 1, 9, 6, 3, 5],
   [3, 4, 5, 2, 8, 6, 1, 7, 9]]

/-- The second valid completion of `fourHoleGrid`. -/
def swappedGrid : Grid :=
  [[5, 3, 4, 6, 7, 8, 9, 1, 2],
   [6, 7, 2, 1, 9, 5, 3, 4, 8],
   [1, 9, 8, 3, 4, 2, 5, 6, 7],
   [8, 5, 9, 7, 6, 3, 4, 2, 1],
   [4, 2, 6, 8, 5, 1, 7, 9, 3],
   [7, 1, 3, 9, 2, 4, 8, 5, 6],
   [9, 6, 1, 5, 3, 7, 2, 8, 4],
   [2, 8, 7, 4, 1, 9, 6, 3, 5],
   [3, 4, 5, 2, 8, 6, 1, 7, 9]]

/-! ## Grids: reading, writing, extensionality -/

theorem getCell_of_WF {g : Grid} (h : WF g) {r c : Nat} (hr : r < 9) (hc : c < 9) :
    getCell g r c = some (cell g r c) := by
  obtain ⟨hl, hrow⟩ := h
  have hr2 : r < g.length := by omega
  have hlen : (g[r]).length = 9 := hrow _ (List.getElem_mem hr2)
  have hc2 : c < (g[r]).length := by omega
  simp [cell, getCell, List.getElem?_eq_getElem hr2, List.getElem?_eq_getElem hc2]

theorem cell_setCell {g g2 : Grid} {r c : Nat} {v : Int} (h : setCell g r c v = some g2)
    (r2 c2 : Nat) : cell g2 r2 c2 = if r2 = r ∧ c2 = c then v else cell g r2 c2 := by
  unfold setCell at h
  cases hrow : g[r]? with
  | none => simp [hrow] at h
  | some row =>
    simp only [hrow] at h
    split at h
    · rename_i hc
      have hr : r < g.length := by
        by_contra hcon
        simp [List.getElem?_eq_none (Nat.le_of_not_lt hcon)] at hrow
      injection h with h
      subst h
      by_cases e1 : r2 = r
      · subst e1
        by_cases e2 : c2 = c
        · subst e2
          simp [cell, getCell, List.getElem?_set, hr, hc]
        · have e3 : ¬ c = c2 := fun e => e2 e.symm
          simp [cell, getCell, List.getElem?_set, hr, hrow, e2, e3]
      · have e3 : ¬ r = r2 := fun e => e1 e.symm
        simp [cell, getCell, List.getElem?_set, e1, e3]
    · simp at h

theorem setCell_of_WF {g : Grid} (h : WF g) {r c : Nat} (hr : r < 9) (hc : c < 9) (v : Int) :
    ∃ g2, setCell g r c v = some g2 ∧ WF g2 := by
  obtain ⟨hl, hrow⟩ := h
  have hr2 : r < g.length := by omega
  have hlen : (g[r]).length = 9 := hrow _ (List.getElem_mem hr2)
  refine ⟨g.set r ((g[r]).set c v), ?_, ?_, ?_⟩
  · simp [setCell, List.getElem?_eq_getElem hr2, hlen, hc]
  · simpa using hl
  · intro row hmem
    rcases List.mem_or_eq_of_mem_set hmem with h1 | h1
    · exact hrow _ h1
    · subst h1
      simpa using hlen

theorem grid_ext {g g2 : Grid} (h : WF g) (h2 : WF g2)
    (hcells : ∀ r, r < 9 → ∀ c, c < 9 → cell g r c = cell g2 r c) : g = g2 := by
  apply List.ext_getElem (by rw [h.1, h2.1])
  intro r hr1 hr2
  have hr : r < 9 := by have := h.1; omega
  have hl1 : (g[r]).length = 9 := h.2 _ (List.getElem_mem hr1)
  have hl2 : (g2[r]).length = 9 := h2.2 _ (List.getElem_mem hr2)
  apply List.ext_getElem (by rw [hl1, hl2])
  intro c hc1 hc2
  have hc : c < 9 := by omega
  have e := hcells r hr c hc
  simpa [cell, getCell, List.getElem?_eq_getElem hr1, List.getElem?_eq_getElem hr2,
    List.getElem?_eq_getElem hc1, List.getElem?_eq_getElem hc2] using e

/-! ## The unit check -/

theorem isValidSetLoop_iff (seen : Int → Bool) (nums : List Int) :
    isValidSetLoop seen nums = true ↔
      (∀ x ∈ nums, 1 ≤ x ∧ x ≤ 9 ∧ seen x = false) ∧ nums.Nodup := by
  induction nums generalizing seen with
  | nil => simp [isValidSetLoop]
  | cons num rest ih =>
    unfold isValidSetLoop
    by_cases h : (num < 1 || num > 9 || seen num) = true
    · rw [if_pos h]
      simp only [Bool.or_eq_true, decide_eq_true_eq] at h
      constructor
      · intro hf; exact absurd hf (by simp)
      · rintro ⟨hall, -⟩
        have := hall num (List.mem_cons_self _ _)
        rcases h with (h | h) | h
        · omega
        · omega
        · rw [this.2.2] at h; exact absurd h (by simp)
    · rw [if_neg h, ih]
      simp only [Bool.or_eq_true, decide_eq_true_eq, not_or, not_lt, Bool.not_eq_true] at h
      obtain ⟨⟨h1, h2⟩, h3⟩ := h
      constructor
      · rintro ⟨hall, hnd⟩
        refine ⟨?_, List.nodup_cons.2 ⟨?_, hnd⟩⟩
        · intro x hx
          rcases List.mem_cons.1 hx with e | e
          · subst e; exact ⟨h1, by omega, h3⟩
          · have := hall x e
            refine ⟨this.1, this.2.1, ?_⟩
            have h4 := this.2.2
            by_cases e2 : x = num
            · simp [e2] at h4
            · simpa [e2] using h4
        · intro hmem
          have := (hall num hmem).2.2
          simp at this
      · rintro ⟨hall, hnd⟩
        obtain ⟨hnot, hnd2⟩ := List.nodup_cons.1 hnd
        refine ⟨?_, hnd2⟩
        intro x hx
        have := hall x (List.mem_cons_of_mem _ hx)
        refine ⟨this.1, this.2.1, ?_⟩
        have e2 : x ≠ num := fun e => hnot (e ▸ hx)
        simpa [e2] using this.2.2

theorem isValidSet_iff (nums : List Int) :
    isValidSet nums = true ↔ (∀ x ∈ nums, 1 ≤ x ∧ x ≤ 9) ∧ nums.Nodup := by
  unfold isValidSet
  rw [isValidSetLoop_iff]
  simp

/-! ## The 27 units of `isSudokuSolved` -/

theorem readCells_of_WF {g : Grid} (h : WF g) (ps : List (Nat × Nat))
    (hps : ∀ p ∈ ps, p.1 < 9 ∧ p.2 < 9) :
    readCells g ps = some (ps.map (fun p => cell g p.1 p.2)) := by
  induction ps with
  | nil => rfl
  | cons p rest ih =>
    obtain ⟨r, c⟩ := p
    have hp := hps (r, c) (List.mem_cons_self _ _)
    have ih2 := ih (fun q hq => hps q (List.mem_cons_of_mem _ hq))
    simp [readCells, getCell_of_WF h hp.1 hp.2, ih2]

theorem readCells_column {g : Grid} (h : WF g) {c : Nat} (hc : c < 9) :
    readCells g (columnCells c) = some (unitColumn g c) := by
  rw [readCells_of_WF h]
  · simp [columnCells, unitColumn, List.map_map, Function.comp_def]
  · intro p hp
    simp only [columnCells, List.mem_map, List.mem_range] at hp
    obtain ⟨r, hr, rfl⟩ := hp
    exact ⟨hr, hc⟩

theorem mem_subgridCells {sr sc : Nat} {p : Nat × Nat} :
    p ∈ subgridCells sr sc ↔ (sr ≤ p.1 ∧ p.1 < sr + 3) ∧ (sc ≤ p.2 ∧ p.2 < sc + 3) := by
  obtain ⟨a, b⟩ := p
  simp only [subgridCells, List.mem_flatMap, List.mem_map, List.mem_range', Prod.mk.injEq]
  constructor
  · rintro ⟨x, ⟨i, hi, rfl⟩, y, ⟨j, hj, rfl⟩, rfl, rfl⟩
    omega
  · rintro ⟨⟨h1, h2⟩, h3, h4⟩
    exact ⟨a, ⟨a - sr, by omega, by omega⟩, b, ⟨b - sc, by omega, by omega⟩, rfl, rfl⟩

theorem readCells_subgrid {g : Grid} (h : WF g) {sr sc : Nat} (hr : sr + 3 ≤ 9)
    (hc : sc + 3 ≤ 9) : readCells g (subgridCells sr sc) = some (unitBox g sr sc) := by
  rw [readCells_of_WF h]
  · simp [subgridCells, unitBox, List.range', List.range, List.range.loop]
  · intro p hp
    rw [mem_subgridCells] at hp
    omega

theorem row_of_WF {g : Grid} (h : WF g) {r : Nat} (hr : r < 9) :
    g[r]? = some (unitRow g r) := by
  have hr2 : r < g.length := by have := h.1; omega
  have hlen : (g[r]).length = 9 := h.2 _ (List.getElem_mem hr2)
  rw [List.getElem?_eq_getElem hr2]
  congr 1
  apply List.ext_getElem (by simp [unitRow, hlen])
  intro c hc1 hc2
  simp [unitRow, cell, getCell, List.getElem?_eq_getElem hr2, List.getElem?_eq_getElem hc1]

theorem rowsValid_iff (g : Grid) : rowsValid g = true ↔ ∀ row ∈ g, isValidSet row = true := by
  induction g with
  | nil => simp [rowsValid]
  | cons row rest ih =>
    by_cases h : isValidSet row = true <;> simp [rowsValid, h, ih]

theorem rowsValid_of_WF {g : Grid} (h : WF g) :
    rowsValid g = true ↔ ∀ r, r < 9 → isValidSet (unitRow g r) = true := by
  rw [rowsValid_iff]
  constructor
  · intro hall r hr
    have hr2 : r < g.length := by have := h.1; omega
    have e := row_of_WF h hr
    rw [List.getElem?_eq_getElem hr2] at e
    injection e with e
    rw [← e]
    exact hall _ (List.getElem_mem hr2)
  · intro hall row hmem
    obtain ⟨r, hr2, rfl⟩ := List.getElem_of_mem hmem
    have hr : r < 9 := by have := h.1; omega
    have e := row_of_WF h hr
    rw [List.getElem?_eq_getElem hr2] at e
    injection e with e
    rw [e]
    exact hall r hr

theorem columnsValid_of_WF {g : Grid} (h : WF g) (cols : List Nat) (hcols : ∀ c ∈ cols, c < 9) :
    columnsValid g cols = some (decide (∀ c ∈ cols, isValidSet (unitColumn g c) = true)) := by
  induction cols with
  | nil => simp [columnsValid]
  | cons c rest ih =>
    have ih2 := ih (fun q hq => hcols q (List.mem_cons_of_mem _ hq))
    have hc := hcols c (List.mem_cons_self _ _)
    by_cases hv : isValidSet (unitColumn g c) = true <;>
      simp [columnsValid, readCells_column h hc, hv, ih2]

theorem subgridsValid_of_WF {g : Grid} (h : WF g) (starts : List (Nat × Nat))
    (hstarts : ∀ p ∈ starts, p.1 + 3 ≤ 9 ∧ p.2 + 3 ≤ 9) :
    subgridsValid g starts =
      some (decide (∀ p ∈ starts, isValidSet (unitBox g p.1 p.2) = true)) := by
  induction starts with
  | nil => simp [subgridsValid]
  | cons p rest ih =>
    obtain ⟨sr, sc⟩ := p
    have ih2 := ih (fun q hq => hstarts q (List.mem_cons_of_mem _ hq))
    have hp := hstarts (sr, sc) (List.mem_cons_self _ _)
    by_cases hv : isValidSet (unitBox g sr sc) = true <;>
      simp [subgridsValid, readCells_subgrid h hp.1 hp.2, hv, ih2]

theorem isSudokuSolved_of_WF {g : Grid} (h : WF g) :
    isSudokuSolved g = some (decide (AllUnitsValid g)) := by
  have hcols := columnsValid_of_WF h (List.range 9) (fun c hc => List.mem_range.1 hc)
  have hboxes := subgridsValid_of_WF h subgridStarts (by decide)
  have hrows := rowsValid_of_WF h
  have e1 : (∀ c ∈ List.range 9, isValidSet (unitColumn g c) = true) ↔
      (∀ c, c < 9 → isValidSet (unitColumn g c) = true) := by simp
  have e2 : (∀ p ∈ subgridStarts, isValidSet (unitBox g p.1 p.2) = true) ↔
      (∀ br, br < 3 → ∀ bc, bc < 3 → isValidSet (unitBox g (3 * br) (3 * bc)) = true) := by
    constructor
    · intro hall br hbr bc hbc
      apply hall (3 * br, 3 * bc)
      interval_cases br <;> interval_cases bc <;> decide
    · intro hall p hp
      simp only [subgridStarts, List.mem_flatMap, List.mem_map, List.mem_cons,
        List.mem_singleton, List.not_mem_nil, or_false] at hp
      obtain ⟨a, ha, b, hb, rfl⟩ := hp
      rcases ha with rfl | rfl | rfl <;> rcases hb with rfl | rfl | rfl
      · exact hall 0 (by omega) 0 (by omega)
      · exact hall 0 (by omega) 1 (by omega)
      · exact hall 0 (by omega) 2 (by omega)
      · exact hall 1 (by omega) 0 (by omega)
      · exact hall 1 (by omega) 1 (by omega)
      · exact hall 1 (by omega) 2 (by omega)
      · exact hall 2 (by omega) 0 (by omega)
      · exact hall 2 (by omega) 1 (by omega)
      · exact hall 2 (by omega) 2 (by omega)
  unfold isSudokuSolved
  rw [hcols, hboxes]
  by_cases hr : rowsValid g = true
  · have hr2 := hrows.1 hr
    by_cases hc : ∀ c, c < 9 → isValidSet (unitColumn g c) = true
    · by_cases hb : ∀ br, br < 3 → ∀ bc, bc < 3 → isValidSet (unitBox g (3 * br) (3 * bc)) = true
      · have hb2 := e2.2 hb
        have hc2 := e1.2 hc
        have : AllUnitsValid g := ⟨hr2, hc, hb⟩
        simp only [hr, decide_eq_true hc2, decide_eq_true hb2, decide_eq_true this]
        rfl
      · have hb2 : ¬ (∀ p ∈ subgridStarts, isValidSet (unitBox g p.1 p.2) = true) :=
          fun hh => hb (e2.1 hh)
        have hc2 := e1.2 hc
        have : ¬ AllUnitsValid g := fun hh => hb hh.2.2
        simp only [hr, decide_eq_true hc2, decide_eq_false hb2, decide_eq_false this]
        rfl
    · have hc2 : ¬ (∀ c ∈ List.range 9, isValidSet (unitColumn g c) = true) :=
        fun hh => hc (e1.1 hh)
      have : ¬ AllUnitsValid g := fun hh => hc hh.2.1
      simp only [hr, decide_eq_false hc2, decide_eq_false this]
      rfl
  · have : ¬ AllUnitsValid g := fun hh => hr (hrows.2 hh.1)
    simp only [hr, decide_eq_false this]
    rfl

/-! ## Solved grids, cell by cell -/

theorem unitBox_eq_map (g : Grid) (sr sc : Nat) :
    unitBox g sr sc =
      (List.product (List.range 3) (List.range 3)).map (fun p => cell g (sr + p.1) (sc + p.2)) :=
  rfl

theorem nodup_range_product : (List.product (List.range 3) (List.range 3)).Nodup := by decide

theorem mem_range_product {p : Nat × Nat} :
    p ∈ List.product (List.range 3) (List.range 3) ↔ p.1 < 3 ∧ p.2 < 3 := by
  obtain ⟨a, b⟩ := p
  simp [List.pair_mem_product]

theorem solved_of_allUnitsValid {g : Grid} (h : AllUnitsValid g) : Solved g := by
  obtain ⟨hrows, hcols, hboxes⟩ := h
  refine ⟨?_, ?_⟩
  · intro r hr c hc
    have := ((isValidSet_iff _).1 (hrows r hr)).1 (cell g r c)
    apply this
    simp only [unitRow, List.mem_map, List.mem_range]
    exact ⟨c, hc, rfl⟩
  · intro r1 hr1 c1 hc1 r2 hr2 c2 hc2 hsame heq
    rcases hsame with e | e | ⟨e1, e2⟩
    · subst e
      have hnd := ((isValidSet_iff _).1 (hrows r1 hr1)).2
      unfold unitRow at hnd
      rw [List.nodup_map_iff_inj_on (List.nodup_range 9)] at hnd
      exact ⟨rfl, hnd c1 (List.mem_range.2 hc1) c2 (List.mem_range.2 hc2) heq⟩
    · subst e
      have hnd := ((isValidSet_iff _).1 (hcols c1 hc1)).2
      unfold unitColumn at hnd
      rw [List.nodup_map_iff_inj_on (List.nodup_range 9)] at hnd
      exact ⟨hnd r1 (List.mem_range.2 hr1) r2 (List.mem_range.2 hr2) heq, rfl⟩
    · have hnd := ((isValidSet_iff _).1
        (hboxes (r1 / 3) (by omega) (c1 / 3) (by omega))).2
      rw [unitBox_eq_map, List.nodup_map_iff_inj_on nodup_range_product] at hnd
      have := hnd (r1 % 3, c1 % 3) (mem_range_product.2 ⟨by omega, by omega⟩)
        (r2 % 3, c2 % 3) (mem_range_product.2 ⟨by omega, by omega⟩)
      have e3 : 3 * (r1 / 3) + r1 % 3 = r1 := by omega
      have e4 : 3 * (c1 / 3) + c1 % 3 = c1 := by omega
      have e5 : 3 * (r1 / 3) + r2 % 3 = r2 := by omega
      have e6 : 3 * (c1 / 3) + c2 % 3 = c2 := by omega
      simp only [e3, e4, e5, e6, Prod.mk.injEq] at this
      have := this heq
      omega

theorem allUnitsValid_of_solved {g : Grid} (h : Solved g) : AllUnitsValid g := by
  obtain ⟨hrange, hinj⟩ := h
  refine ⟨?_, ?_, ?_⟩
  · intro r hr
    rw [isValidSet_iff]
    refine ⟨?_, ?_⟩
    · intro x hx
      simp only [unitRow, List.mem_map, List.mem_range] at hx
      obtain ⟨c, hc, rfl⟩ := hx
      exact hrange r hr c hc
    · unfold unitRow
      rw [List.nodup_map_iff_inj_on (List.nodup_range 9)]
      intro c1 hc1 c2 hc2 heq
      exact (hinj r hr c1 (List.mem_range.1 hc1) r hr c2 (List.mem_range.1 hc2)
        (Or.inl rfl) heq).2
  · intro c hc
    rw [isValidSet_iff]
    refine ⟨?_, ?_⟩
    · intro x hx
      simp only [unitColumn, List.mem_map, List.mem_range] at hx
      obtain ⟨r, hr, rfl⟩ := hx
      exact hrange r hr c hc
    · unfold unitColumn
      rw [List.nodup_map_iff_inj_on (List.nodup_range 9)]
      intro r1 hr1 r2 hr2 heq
      exact (hinj r1 (List.mem_range.1 hr1) c hc r2 (List.mem_range.1 hr2) c hc
        (Or.inr (Or.inl rfl)) heq).1
  · intro br hbr bc hbc
    rw [isValidSet_iff, unitBox_eq_map]
    refine ⟨?_, ?_⟩
    · intro x hx
      simp only [List.mem_map] at hx
      obtain ⟨p, hp, rfl⟩ := hx
      rw [mem_range_product] at hp
      exact hrange _ (by omega) _ (by omega)
    · rw [List.nodup_map_iff_inj_on nodup_range_product]
      intro p hp q hq heq
      rw [mem_range_product] at hp hq
      have := hinj (3 * br + p.1) (by omega) (3 * bc + p.2) (by omega)
        (3 * br + q.1) (by omega) (3 * bc + q.2) (by omega)
        (Or.inr (Or.inr ⟨by omega, by omega⟩)) heq
      ext <;> omega

theorem isSudokuSolved_iff_solved {g : Grid} (h : WF g) :
    isSudokuSolved g = some true ↔ Solved g := by
  rw [isSudokuSolved_of_WF h]
  simp only [Option.some.injEq, decide_eq_true_eq]
  exact ⟨solved_of_allUnitsValid, allUnitsValid_of_solved⟩

/-! ## `findEmpty` and `isValid` on well-formed grids -/

theorem mem_allCells {p : Nat × Nat} : p ∈ allCells ↔ p.1 < 9 ∧ p.2 < 9 := by
  obtain ⟨a, b⟩ := p
  simp only [allCells, List.mem_flatMap, List.mem_map, List.mem_range, Prod.mk.injEq]
  constructor
  · rintro ⟨x, hx, y, hy, rfl, rfl⟩
    exact ⟨hx, hy⟩
  · rintro ⟨h1, h2⟩
    exact ⟨a, h1, b, h2, rfl, rfl⟩

theorem findEmptyLoop_of_WF {g : Grid} (h : WF g) (ps : List (Nat × Nat))
    (hps : ∀ p ∈ ps, p.1 < 9 ∧ p.2 < 9) :
    (findEmptyLoop g ps = some none ∧ ∀ p ∈ ps, cell g p.1 p.2 ≠ 0) ∨
    (∃ pre r c post, ps = pre ++ (r, c) :: post ∧ (∀ p ∈ pre, cell g p.1 p.2 ≠ 0) ∧
      cell g r c = 0 ∧ findEmptyLoop g ps = some (some (r, c))) := by
  induction ps with
  | nil => left; simp [findEmptyLoop]
  | cons p rest ih =>
    obtain ⟨r, c⟩ := p
    have hp := hps (r, c) (List.mem_cons_self _ _)
    have ih2 := ih (fun q hq => hps q (List.mem_cons_of_mem _ hq))
    by_cases hz : cell g r c = 0
    · right
      refine ⟨[], r, c, rest, rfl, by simp, hz, ?_⟩
      simp [findEmptyLoop, getCell_of_WF h hp.1 hp.2, hz]
    · have hstep : findEmptyLoop g ((r, c) :: rest) = findEmptyLoop g rest := by
        simp [findEmptyLoop, getCell_of_WF h hp.1 hp.2, hz]
      rcases ih2 with ⟨h1, h2⟩ | ⟨pre, r2, c2, post, h1, h2, h3, h4⟩
      · left
        refine ⟨by rw [hstep, h1], ?_⟩
        intro q hq
        rcases List.mem_cons.1 hq with e | e
        · subst e; exact hz
        · exact h2 q e
      · right
        refine ⟨(r, c) :: pre, r2, c2, post, by rw [h1]; rfl, ?_, h3, by rw [hstep, h4]⟩
        intro q hq
        rcases List.mem_cons.1 hq with e | e
        · subst e; exact hz
        · exact h2 q e

theorem findEmpty_of_WF {g : Grid} (h : WF g) :
    (findEmpty g = some none ∧ Full g) ∨
    (∃ r c, r < 9 ∧ c < 9 ∧ cell g r c = 0 ∧ findEmpty g = some (some (r, c))) := by
  rcases findEmptyLoop_of_WF h allCells (fun p hp => mem_allCells.1 hp) with
    ⟨h1, h2⟩ | ⟨pre, r, c, post, h1, -, h3, h4⟩
  · left
    exact ⟨h1, fun r hr c hc => h2 (r, c) (mem_allCells.2 ⟨hr, hc⟩)⟩
  · right
    have hm : (r, c) ∈ allCells := by rw [h1]; simp
    rw [mem_allCells] at hm
    exact ⟨r, c, hm.1, hm.2, h3, h4⟩

theorem noneEquals_of_WF {g : Grid} (h : WF g) (n : Int) (ps : List (Nat × Nat))
    (hps : ∀ p ∈ ps, p.1 < 9 ∧ p.2 < 9) :
    noneEquals g n ps = some (decide (∀ p ∈ ps, cell g p.1 p.2 ≠ n)) := by
  induction ps with
  | nil => simp [noneEquals]
  | cons p rest ih =>
    obtain ⟨r, c⟩ := p
    have hp := hps (r, c) (List.mem_cons_self _ _)
    have ih2 := ih (fun q hq => hps q (List.mem_cons_of_mem _ hq))
    by_cases hz : cell g r c = n <;>
      simp [noneEquals, getCell_of_WF h hp.1 hp.2, hz, ih2]

theorem isValid_of_WF {g : Grid} (h : WF g) {r c : Nat} (hr : r < 9) (hc : c < 9) (n : Int) :
    isValid g r c n = some (decide (Free g r c n)) := by
  have h1 := noneEquals_of_WF h n (rowCells r) (by
    intro p hp
    simp only [rowCells, List.mem_map, List.mem_range] at hp
    obtain ⟨x, hx, rfl⟩ := hp
    exact ⟨hr, hx⟩)
  have h2 := noneEquals_of_WF h n (columnCells c) (by
    intro p hp
    simp only [columnCells, List.mem_map, List.mem_range] at hp
    obtain ⟨x, hx, rfl⟩ := hp
    exact ⟨hx, hc⟩)
  have h3 := noneEquals_of_WF h n (subgridCells ((r / 3) * 3) ((c / 3) * 3)) (by
    intro p hp
    rw [mem_subgridCells] at hp
    omega)
  unfold isValid
  rw [h1, h2, h3]
  by_cases d1 : ∀ p ∈ rowCells r, cell g p.1 p.2 ≠ n
  · by_cases d2 : ∀ p ∈ columnCells c, cell g p.1 p.2 ≠ n
    · by_cases d3 : ∀ p ∈ subgridCells ((r / 3) * 3) ((c / 3) * 3), cell g p.1 p.2 ≠ n
      · have : Free g r c n := by
          intro r2 hr2 c2 hc2 hsame
          rcases hsame with e | e | ⟨e1, e2⟩
          · subst e
            exact d1 (r, c2) (by simp [rowCells, hc2])
          · subst e
            exact d2 (r2, c) (by simp [columnCells, hr2])
          · exact d3 (r2, c2) (by rw [mem_subgridCells]; omega)
        simp only [decide_eq_true d1, decide_eq_true d2, decide_eq_true d3, decide_eq_true this]
      · have : ¬ Free g r c n := by
          intro hf
          apply d3
          intro p hp
          rw [mem_subgridCells] at hp
          exact hf p.1 (by omega) p.2 (by omega) (Or.inr (Or.inr ⟨by omega, by omega⟩))
        simp only [decide_eq_true d1, decide_eq_true d2, decide_eq_false d3,
          decide_eq_false this]
    · have : ¬ Free g r c n := by
        intro hf
        apply d2
        intro p hp
        simp only [columnCells, List.mem_map, List.mem_range] at hp
        obtain ⟨x, hx, rfl⟩ := hp
        exact hf x hx c hc (Or.inr (Or.inl rfl))
      simp only [decide_eq_true d1, decide_eq_false d2, decide_eq_false this]
  · have : ¬ Free g r c n := by
      intro hf
      apply d1
      intro p hp
      simp only [rowCells, List.mem_map, List.mem_range] at hp
      obtain ⟨x, hx, rfl⟩ := hp
      exact hf r hr x hx (Or.inl rfl)
    simp only [decide_eq_false d1, decide_eq_false this]

/-! ## Filling an empty cell removes one empty cell -/

theorem countP_flip {α : Type} (l : List α) (hnd : l.Nodup) (a : α) (ha : a ∈ l)
    (p q : α → Bool) (hp : p a = true) (hq : q a = false)
    (hother : ∀ x ∈ l, x ≠ a → q x = p x) : l.countP q + 1 = l.countP p := by
  induction l with
  | nil => simp at ha
  | cons x rest ih =>
    obtain ⟨hnot, hnd2⟩ := List.nodup_cons.1 hnd
    by_cases e : x = a
    · subst e
      have hsame : rest.countP q = rest.countP p := by
        apply List.countP_congr
        intro y hy
        have hne : y ≠ x := fun e => hnot (e ▸ hy)
        rw [hother y (List.mem_cons_of_mem _ hy) hne]
      simp [List.countP_cons, hp, hq, hsame]
    · have ha2 : a ∈ rest := by
        rcases List.mem_cons.1 ha with e2 | e2
        · exact absurd e2.symm e
        · exact e2
      have ih2 := ih hnd2 ha2 (fun y hy hne => hother y (List.mem_cons_of_mem _ hy) hne)
      have hx := hother x (List.mem_cons_self _ _) e
      simp only [List.countP_cons, hx]
      omega

theorem nodup_allCells : allCells.Nodup := by decide

theorem countEmpty_setCell {g g2 : Grid} (h : WF g) (h2 : WF g2) {r c : Nat} {v : Int}
    (hr : r < 9) (hc : c < 9) (hz : cell g r c = 0) (hv : v ≠ 0)
    (hset : setCell g r c v = some g2) : countEmpty g2 + 1 = countEmpty g := by
  unfold countEmpty
  apply countP_flip allCells nodup_allCells (r, c) (mem_allCells.2 ⟨hr, hc⟩)
  · simp [getCell_of_WF h hr hc, hz]
  · simp [getCell_of_WF h2 hr hc, cell_setCell hset, hv]
  · intro p hp hne
    rw [mem_allCells] at hp
    have hne2 : ¬ (p.1 = r ∧ p.2 = c) := fun e => hne (Prod.ext e.1 e.2)
    simp [getCell_of_WF h hp.1 hp.2, getCell_of_WF h2 hp.1 hp.2, cell_setCell hset, hne2]

/-! ## What a call of the solver returns -/

theorem SameUnit.symm {r1 c1 r2 c2 : Nat} (h : SameUnit r1 c1 r2 c2) : SameUnit r2 c2 r1 c1 := by
  rcases h with e | e | ⟨e1, e2⟩
  · exact Or.inl e.symm
  · exact Or.inr (Or.inl e.symm)
  · exact Or.inr (Or.inr ⟨e1.symm, e2.symm⟩)

theorem solved_of_full_consistent {g : Grid} (hf : Full g) (hc : Consistent g) : Solved g :=
  ⟨fun r hr c hcol => hc.1 r hr c hcol (hf r hr c hcol),
   fun r1 hr1 c1 hc1 r2 hr2 c2 hc2 hs he => hc.2 r1 hr1 c1 hc1 r2 hr2 c2 hc2 hs (hf r1 hr1 c1 hc1) he⟩

theorem consistent_setCell {g g1 : Grid} {r c : Nat} {n : Int} (hcons : Consistent g)
    (hz : cell g r c = 0) (h1 : 1 ≤ n) (h9 : n ≤ 9) (hfree : Free g r c n)
    (hr : r < 9) (hc : c < 9) (hset : setCell g r c n = some g1) : Consistent g1 := by
  have hcell := cell_setCell hset
  refine ⟨?_, ?_⟩
  · intro r2 hr2 c2 hc2 hne
    rw [hcell] at hne ⊢
    by_cases e : r2 = r ∧ c2 = c
    · simp only [e, and_self, if_true]; exact ⟨h1, h9⟩
    · simp only [e, if_false] at hne ⊢
      exact hcons.1 r2 hr2 c2 hc2 hne
  · intro r1 hr1 c1 hc1 r2 hr2 c2 hc2 hs hne heq
    rw [hcell] at hne
    rw [hcell r1 c1, hcell r2 c2] at heq
    by_cases e1 : r1 = r ∧ c1 = c
    · by_cases e2 : r2 = r ∧ c2 = c
      · exact ⟨e1.1.trans e2.1.symm, e1.2.trans e2.2.symm⟩
      · simp only [e1, and_self, if_true, e2, if_false] at heq
        obtain ⟨rfl, rfl⟩ := e1
        exact absurd heq.symm (hfree r2 hr2 c2 hc2 hs)
    · by_cases e2 : r2 = r ∧ c2 = c
      · simp only [e1, if_false, e2, and_self, if_true] at heq
        obtain ⟨rfl, rfl⟩ := e2
        exact absurd heq (hfree r1 hr1 c1 hc1 hs.symm)
      · simp only [e1, if_false, e2] at heq hne
        exact hcons.2 r1 hr1 c1 hc1 r2 hr2 c2 hc2 hs hne heq

theorem setCell_back {g g1 g3 : Grid} {r c : Nat} {n : Int} (h : WF g) (h3 : WF g3)
    (hz : cell g r c = 0) (hset : setCell g r c n = some g1)
    (hback : setCell g1 r c 0 = some g3) : g3 = g := by
  apply grid_ext h3 h
  intro r2 _ c2 _
  rw [cell_setCell hback, cell_setCell hset]
  by_cases e : r2 = r ∧ c2 = c
  · obtain ⟨rfl, rfl⟩ := e
    simp [hz]
  · simp [e]

theorem tryCandidates_spec (recur : Grid → Option (Bool × Grid))
    (hrec : ∀ g1, WF g1 → ∀ b g2, recur g1 = some (b, g2) → SolveSpec g1 b g2)
    {r c : Nat} (hr : r < 9) (hc : c < 9) (nums : List Int)
    (hnums : ∀ n ∈ nums, 1 ≤ n ∧ n ≤ 9) {g : Grid} (h : WF g) (hz : cell g r c = 0)
    {b : Bool} {g2 : Grid} (hres : tryCandidates recur r c nums g = some (b, g2)) :
    SolveSpec g b g2 := by
  induction nums with
  | nil =>
    simp only [tryCandidates, Option.some.injEq, Prod.mk.injEq] at hres
    obtain ⟨rfl, rfl⟩ := hres
    exact ⟨h, fun _ => rfl, fun e => absurd e (by simp), fun _ _ _ _ _ => rfl,
      fun e => absurd e (by simp)⟩
  | cons n rest ih =>
    have ih2 := ih (fun q hq => hnums q (List.mem_cons_of_mem _ hq))
    have hn := hnums n (List.mem_cons_self _ _)
    unfold tryCandidates at hres
    rw [isValid_of_WF h hr hc n] at hres
    by_cases hfree : Free g r c n
    · simp only [decide_eq_true hfree] at hres
      obtain ⟨g1, hset, hwf1⟩ := setCell_of_WF h hr hc n
      simp only [hset] at hres
      cases hcall : recur g1 with
      | none => simp [hcall] at hres
      | some res =>
        obtain ⟨b1, g3⟩ := res
        have hs := hrec g1 hwf1 b1 g3 hcall
        cases b1 with
        | true =>
          simp only [hcall, Option.some.injEq, Prod.mk.injEq] at hres
          obtain ⟨rfl, rfl⟩ := hres
          obtain ⟨hw, -, hfull, hext, hsound⟩ := hs
          refine ⟨hw, fun e => absurd e (by simp), hfull, ?_, ?_⟩
          · intro r2 hr2 c2 hc2 hne
            have hpos : ¬ (r2 = r ∧ c2 = c) := by
              rintro ⟨rfl, rfl⟩
              exact hne hz
            have e1 : cell g1 r2 c2 = cell g r2 c2 := by
              rw [cell_setCell hset]; simp [hpos]
            rw [← e1]
            exact hext r2 hr2 c2 hc2 (by rw [e1]; exact hne)
          · intro _ hcons
            exact hsound rfl (consistent_setCell hcons hz hn.1 hn.2 hfree hr hc hset)
        | false =>
          have e3 : g3 = g1 := hs.2.1 rfl
          subst e3
          obtain ⟨g4, hback, hwf4⟩ := setCell_of_WF hwf1 hr hc 0
          simp only [hcall, hback] at hres
          have e4 : g4 = g := setCell_back h hwf4 hz hset hback
          subst e4
          exact ih2 hres
    · simp only [decide_eq_false hfree] at hres
      exact ih2 hres

theorem candidates_range : ∀ n ∈ candidates, 1 ≤ n ∧ n ≤ 9 := by decide

theorem solveFuel_spec (fuel : Nat) : ∀ g, WF g → ∀ b g2,
    solveFuel fuel g = some (b, g2) → SolveSpec g b g2 := by
  induction fuel with
  | zero => intro g _ b g2 hres; simp [solveFuel] at hres
  | succ fuel ih =>
    intro g h b g2 hres
    unfold solveFuel at hres
    rcases findEmpty_of_WF h with ⟨hfind, hfull⟩ | ⟨r, c, hr, hc, hz, hfind⟩
    · simp only [hfind, Option.some.injEq, Prod.mk.injEq] at hres
      obtain ⟨rfl, rfl⟩ := hres
      exact ⟨h, fun e => absurd e (by simp), fun _ => hfull, fun _ _ _ _ _ => rfl,
        fun _ hc => hc⟩
    · simp only [hfind] at hres
      exact tryCandidates_spec (solveFuel fuel) ih hr hc candidates candidates_range h hz hres

/-! ## Termination: the recursion depth is bounded by the number of empty cells -/

theorem tryCandidates_total (recur : Grid → Option (Bool × Grid)) (m : Nat)
    (hrec : ∀ g1, WF g1 → ∀ b g2, recur g1 = some (b, g2) → SolveSpec g1 b g2)
    (htot : ∀ g1, WF g1 → countEmpty g1 < m → ∃ res, recur g1 = some res)
    {r c : Nat} (hr : r < 9) (hc : c < 9) (nums : List Int)
    (hnums : ∀ n ∈ nums, 1 ≤ n ∧ n ≤ 9) {g : Grid} (h : WF g) (hz : cell g r c = 0)
    (hm : countEmpty g ≤ m) : ∃ res, tryCandidates recur r c nums g = some res := by
  induction nums with
  | nil => exact ⟨_, rfl⟩
  | cons n rest ih =>
    have ih2 := ih (fun q hq => hnums q (List.mem_cons_of_mem _ hq))
    have hn := hnums n (List.mem_cons_self _ _)
    unfold tryCandidates
    rw [isValid_of_WF h hr hc n]
    by_cases hfree : Free g r c n
    · simp only [decide_eq_true hfree]
      obtain ⟨g1, hset, hwf1⟩ := setCell_of_WF h hr hc n
      have hcount := countEmpty_setCell h hwf1 hr hc hz (by omega) hset
      obtain ⟨⟨b1, g3⟩, hcall⟩ := htot g1 hwf1 (by omega)
      have hs := hrec g1 hwf1 b1 g3 hcall
      cases b1 with
      | true => exact ⟨(true, g3), by simp only [hset, hcall]⟩
      | false =>
        have e3 : g3 = g1 := hs.2.1 rfl
        subst e3
        obtain ⟨g4, hback, hwf4⟩ := setCell_of_WF hwf1 hr hc 0
        have e4 : g4 = g := setCell_back h hwf4 hz hset hback
        subst e4
        obtain ⟨res, hres⟩ := ih2
        exact ⟨res, by simp only [hset, hcall, hback, hres]⟩
    · simp only [decide_eq_false hfree]
      exact ih2

theorem solveFuel_total (fuel : Nat) : ∀ g, WF g → countEmpty g < fuel →
    ∃ res, solveFuel fuel g = some res := by
  induction fuel with
  | zero => intro g _ hlt; omega
  | succ fuel ih =>
    intro g h hlt
    unfold solveFuel
    rcases findEmpty_of_WF h with ⟨hfind, -⟩ | ⟨r, c, hr, hc, hz, hfind⟩
    · exact ⟨(true, g), by simp only [hfind]⟩
    · simp only [hfind]
      exact tryCandidates_total (solveFuel fuel) fuel (solveFuel_spec fuel) ih hr hc
        candidates candidates_range h hz (by omega)

theorem tryCandidates_mono (rec1 rec2 : Grid → Option (Bool × Grid))
    (hle : ∀ g res, rec1 g = some res → rec2 g = some res) (r c : Nat) (nums : List Int) :
    ∀ g res, tryCandidates rec1 r c nums g = some res →
      tryCandidates rec2 r c nums g = some res := by
  induction nums with
  | nil => intro g res h; simpa [tryCandidates] using h
  | cons n rest ih =>
    intro g res h
    unfold tryCandidates at h ⊢
    cases hv : isValid g r c n with
    | none => simp [hv] at h
    | some bv =>
      cases bv with
      | false =>
        simp only [hv] at h ⊢
        exact ih g res h
      | true =>
        simp only [hv] at h ⊢
        cases hset : setCell g r c n with
        | none => simp [hset] at h
        | some g1 =>
          simp only [hset] at h ⊢
          cases hcall : rec1 g1 with
          | none => simp [hcall] at h
          | some res1 =>
            obtain ⟨b1, g3⟩ := res1
            rw [hle g1 _ hcall]
            cases b1 with
            | true => simpa only [hcall] using h
            | false =>
              simp only [hcall] at h ⊢
              cases hback : setCell g3 r c 0 with
              | none => simp [hback] at h
              | some g4 =>
                simp only [hback] at h ⊢
                exact ih g4 res h

theorem solveFuel_succ (fuel : Nat) : ∀ g res, solveFuel fuel g = some res →
    solveFuel (fuel + 1) g = some res := by
  induction fuel with
  | zero => intro g res h; simp [solveFuel] at h
  | succ fuel ih =>
    intro g res h
    unfold solveFuel at h ⊢
    cases hfind : findEmpty g with
    | none => simp [hfind] at h
    | some found =>
      cases found with
      | none => simpa only [hfind] using h
      | some p =>
        obtain ⟨r, c⟩ := p
        simp only [hfind] at h ⊢
        exact tryCandidates_mono (solveFuel fuel) (solveFuel (fuel + 1)) ih r c candidates g res h

theorem solveFuel_mono {fuel fuel2 : Nat} (hle : fuel ≤ fuel2) {g : Grid}
    {res : Bool × Grid} (h : solveFuel fuel g = some res) : solveFuel fuel2 g = some res := by
  induction hle with
  | refl => exact h
  | step _ ih => exact solveFuel_succ _ g res ih

/-! ## Completeness: a grid with a valid completion is solved -/

theorem free_of_extends {g s : Grid} (hs : Solved s) (hext : Extends g s) {r c : Nat}
    (hr : r < 9) (hc : c < 9) (hz : cell g r c = 0) : Free g r c (cell s r c) := by
  intro r2 hr2 c2 hc2 hsame heq
  have hd := hs.1 r hr c hc
  have hne : cell g r2 c2 ≠ 0 := by rw [heq]; omega
  have e := hext r2 hr2 c2 hc2 hne
  have hpos := hs.2 r hr c hc r2 hr2 c2 hc2 hsame (by rw [e, heq])
  obtain ⟨rfl, rfl⟩ := hpos
  exact hne hz

theorem extends_setCell {g g1 s : Grid} (hext : Extends g s) {r c : Nat}
    (hset : setCell g r c (cell s r c) = some g1) : Extends g1 s := by
  intro r2 hr2 c2 hc2 hne
  rw [cell_setCell hset] at hne ⊢
  by_cases e : r2 = r ∧ c2 = c
  · obtain ⟨rfl, rfl⟩ := e
    simp
  · simp only [e, if_false] at hne ⊢
    exact hext r2 hr2 c2 hc2 hne

theorem tryCandidates_complete (recur : Grid → Option (Bool × Grid)) (m : Nat)
    (hrec : ∀ g1, WF g1 → ∀ b g2, recur g1 = some (b, g2) → SolveSpec g1 b g2)
    (htot : ∀ g1, WF g1 → countEmpty g1 < m → ∃ res, recur g1 = some res)
    {s : Grid} (hs : Solved s)
    (hgood : ∀ g1, WF g1 → countEmpty g1 < m → Extends g1 s → ∃ g2, recur g1 = some (true, g2))
    {r c : Nat} (hr : r < 9) (hc : c < 9) (nums : List Int)
    (hnums : ∀ n ∈ nums, 1 ≤ n ∧ n ≤ 9) {g : Grid} (h : WF g) (hz : cell g r c = 0)
    (hm : countEmpty g ≤ m) (hext : Extends g s) (hmem : cell s r c ∈ nums) :
    ∃ g2, tryCandidates recur r c nums g = some (true, g2) := by
  induction nums with
  | nil => simp at hmem
  | cons n rest ih =>
    have ih2 := ih (fun q hq => hnums q (List.mem_cons_of_mem _ hq))
    have hn := hnums n (List.mem_cons_self _ _)
    unfold tryCandidates
    rw [isValid_of_WF h hr hc n]
    by_cases hfree : Free g r c n
    · simp only [decide_eq_true hfree]
      obtain ⟨g1, hset, hwf1⟩ := setCell_of_WF h hr hc n
      have hcount := countEmpty_setCell h hwf1 hr hc hz (by omega) hset
      obtain ⟨⟨b1, g3⟩, hcall⟩ := htot g1 hwf1 (by omega)
      have hsp := hrec g1 hwf1 b1 g3 hcall
      cases b1 with
      | true => exact ⟨g3, by simp only [hset, hcall]⟩
      | false =>
        have e3 : g3 = g1 := hsp.2.1 rfl
        subst e3
        obtain ⟨g4, hback, hwf4⟩ := setCell_of_WF hwf1 hr hc 0
        have e4 : g4 = g := setCell_back h hwf4 hz hset hback
        subst e4
        have hne : cell s r c ≠ n := by
          intro e
          subst e
          obtain ⟨g5, h5⟩ := hgood g3 hwf1 (by omega) (extends_setCell hext hset)
          rw [hcall] at h5
          simp at h5
        have hmem2 : cell s r c ∈ rest := by
          rcases List.mem_cons.1 hmem with e | e
          · exact absurd e hne
          · exact e
        obtain ⟨g5, h5⟩ := ih2 hmem2
        exact ⟨g5, by simp only [hset, hcall, hback, h5]⟩
    · simp only [decide_eq_false hfree]
      have hne : cell s r c ≠ n := by
        intro e
        subst e
        exact hfree (free_of_extends hs hext hr hc hz)
      have hmem2 : cell s r c ∈ rest := by
        rcases List.mem_cons.1 hmem with e | e
        · exact absurd e hne
        · exact e
      exact ih2 hmem2

theorem mem_candidates {n : Int} (h1 : 1 ≤ n) (h9 : n ≤ 9) : n ∈ candidates := by
  have : n = 1 ∨ n = 2 ∨ n = 3 ∨ n = 4 ∨ n = 5 ∨ n = 6 ∨ n = 7 ∨ n = 8 ∨ n = 9 := by omega
  simpa [candidates] using this

theorem solveFuel_complete {s : Grid} (hs : Solved s) (fuel : Nat) : ∀ g, WF g →
    countEmpty g < fuel → Extends g s → ∃ g2, solveFuel fuel g = some (true, g2) := by
  induction fuel with
  | zero => intro g _ hlt; omega
  | succ fuel ih =>
    intro g h hlt hext
    unfold solveFuel
    rcases findEmpty_of_WF h with ⟨hfind, -⟩ | ⟨r, c, hr, hc, hz, hfind⟩
    · exact ⟨g, by simp only [hfind]⟩
    · simp only [hfind]
      have hd := hs.1 r hr c hc
      exact tryCandidates_complete (solveFuel fuel) fuel (solveFuel_spec fuel)
        (solveFuel_total fuel) hs ih hr hc candidates candidates_range h hz (by omega) hext
        (mem_candidates hd.1 hd.2)

/-! ## The top-level call -/

theorem solveSudoku_total {g : Grid} (h : WF g) : ∃ b g2, solveSudoku g = some (b, g2) := by
  obtain ⟨⟨b, g2⟩, hres⟩ := solveFuel_total (countEmpty g + 1) g h (by omega)
  exact ⟨b, g2, hres⟩

theorem solveSudoku_spec {g : Grid} (h : WF g) {b : Bool} {g2 : Grid}
    (hres : solveSudoku g = some (b, g2)) : SolveSpec g b g2 :=
  solveFuel_spec (countEmpty g + 1) g h b g2 hres

theorem solveSudoku_complete {g s : Grid} (h : WF g) (hs : Solved s) (hext : Extends g s) :
    ∃ g2, solveSudoku g = some (true, g2) :=
  solveFuel_complete hs (countEmpty g + 1) g h (by omega) hext

theorem mem_rows_of_WF {g : Grid} (h : WF g) (row : List Int) :
    row ∈ g ↔ ∃ r, r < 9 ∧ row = unitRow g r := by
  constructor
  · intro hmem
    obtain ⟨r, hr2, rfl⟩ := List.getElem_of_mem hmem
    have hr : r < 9 := by have := h.1; omega
    have e := row_of_WF h hr
    rw [List.getElem?_eq_getElem hr2] at e
    injection e with e
    exact ⟨r, hr, e⟩
  · rintro ⟨r, hr, rfl⟩
    have hr2 : r < g.length := by have := h.1; omega
    have e := row_of_WF h hr
    rw [List.getElem?_eq_getElem hr2] at e
    injection e with e
    rw [← e]
    exact List.getElem_mem hr2

theorem full_iff_rows {g : Grid} (h : WF g) : Full g ↔ ∀ row ∈ g, (0 : Int) ∉ row := by
  constructor
  · intro hfull row hmem hzero
    obtain ⟨r, hr, rfl⟩ := (mem_rows_of_WF h row).1 hmem
    simp only [unitRow, List.mem_map, List.mem_range] at hzero
    obtain ⟨c, hc, e⟩ := hzero
    exact hfull r hr c hc e
  · intro hrows r hr c hc e
    apply hrows (unitRow g r) ((mem_rows_of_WF h _).2 ⟨r, hr, rfl⟩)
    simp only [unitRow, List.mem_map, List.mem_range]
    exact ⟨c, hc, e⟩

theorem isSudokuSolved_false_of_not_solved {g : Grid} (h : WF g) (hn : ¬ Solved g) :
    isSudokuSolved g = some false := by
  rw [isSudokuSolved_of_WF h]
  have : ¬ AllUnitsValid g := fun hh => hn (solved_of_allUnitsValid hh)
  rw [decide_eq_false this]

theorem isSudokuSolved_total {g : Grid} (h : WF g) : ∃ b, isSudokuSolved g = some b :=
  ⟨_, isSudokuSolved_of_WF h⟩

theorem consistent_of_extends {g s : Grid} (hs : Solved s) (hext : Extends g s) :
    Consistent g := by
  refine ⟨?_, ?_⟩
  · intro r hr c hc hne
    rw [← hext r hr c hc hne]
    exact hs.1 r hr c hc
  · intro r1 hr1 c1 hc1 r2 hr2 c2 hc2 hsame hne heq
    have hne2 : cell g r2 c2 ≠ 0 := by rw [← heq]; exact hne
    apply hs.2 r1 hr1 c1 hc1 r2 hr2 c2 hc2 hsame
    rw [hext r1 hr1 c1 hc1 hne, hext r2 hr2 c2 hc2 hne2, heq]

theorem not_solved_of_hasConflict {g : Grid} (h : HasConflict g) : ¬ Solved g := by
  obtain ⟨r1, c1, r2, c2, ⟨hr1, hc1, hr2, hc2⟩, hne, hsame, -, heq⟩ := h
  intro hs
  have := hs.2 r1 hr1 c1 hc1 r2 hr2 c2 hc2 hsame heq
  omega

theorem oneHoleGrid_unique (s2 : Grid) (hwf : WF s2) (hext : Extends oneHoleGrid s2)
    (hsolved : isSudokuSolved s2 = some true) : s2 = solvedGrid := by
  have hS : Solved s2 := (isSudokuSolved_iff_solved hwf).1 hsolved
  have hrest : ∀ r, r < 9 → ∀ c, c < 9 → ¬ (r = 0 ∧ c = 0) →
      cell oneHoleGrid r c ≠ 0 ∧ cell oneHoleGrid r c = cell solvedGrid r c := by decide
  apply grid_ext hwf (by decide)
  intro r hr c hc
  by_cases e : r = 0 ∧ c = 0
  · obtain ⟨rfl, rfl⟩ := e
    have hrange := hS.1 0 (by omega) 0 (by omega)
    have others : ∀ k, 1 ≤ k → k < 9 → cell s2 0 0 ≠ cell solvedGrid 0 k := by
      intro k hk1 hk9 heq
      have hk := hrest 0 (by omega) k hk9 (by omega)
      have e2 := hext 0 (by omega) k hk9 hk.1
      have := hS.2 0 (by omega) 0 (by omega) 0 (by omega) k hk9 (Or.inl rfl)
        (by rw [heq, e2, hk.2])
      omega
    have o1 := others 1 (by omega) (by omega)
    have o2 := others 2 (by omega) (by omega)
    have o3 := others 3 (by omega) (by omega)
    have o4 := others 4 (by omega) (by omega)
    have o5 := others 5 (by omega) (by omega)
    have o6 := others 6 (by omega) (by omega)
    have o7 := others 7 (by omega) (by omega)
    have o8 := others 8 (by omega) (by omega)
    have v0 : cell solvedGrid 0 0 = 5 := by decide
    have v1 : cell solvedGrid 0 1 = 3 := by decide
    have v2 : cell solvedGrid 0 2 = 4 := by decide
    have v3 : cell solvedGrid 0 3 = 6 := by decide
    have v4 : cell solvedGrid 0 4 = 7 := by decide
    have v5 : cell solvedGrid 0 5 = 8 := by decide
    have v6 : cell solvedGrid 0 6 = 9 := by decide
    have v7 : cell solvedGrid 0 7 = 1 := by decide
    have v8 : cell solvedGrid 0 8 = 2 := by decide
    rw [v1] at o1
    rw [v2] at o2
    rw [v3] at o3
    rw [v4] at o4
    rw [v5] at o5
    rw [v6] at o6
    rw [v7] at o7
    rw [v8] at o8
    rw [v0]
    omega
  · have hk := hrest r hr c hc e
    rw [hext r hr c hc hk.1]
    exact hk.2

theorem solveSudoku_of_completion {g s : Grid} (h : WF g) (hs : Solved s)
    (hext : Extends g s) :
    ∃ g2, solveSudoku g = some (true, g2) ∧ WF g2 ∧ Solved g2 ∧ Extends g g2 := by
  obtain ⟨g2, hres⟩ := solveSudoku_complete h hs hext
  obtain ⟨hwf2, -, hfull, hext2, hsound⟩ := solveSudoku_spec h hres
  exact ⟨g2, hres, hwf2,
    solved_of_full_consistent (hfull rfl) (hsound rfl (consistent_of_extends hs hext)), hext2⟩

theorem getCell_ne_none_iff {g : Grid} (h : WF g) (r c : Nat) :
    getCell g r c ≠ none ↔ r < 9 ∧ c < 9 := by
  constructor
  · intro hne
    by_contra hcon
    apply hne
    unfold getCell
    by_cases hr : r < 9
    · have hr2 : r < g.length := by have := h.1; omega
      have hlen : (g[r]).length = 9 := h.2 _ (List.getElem_mem hr2)
      rw [List.getElem?_eq_getElem hr2]
      exact List.getElem?_eq_none (by omega)
    · rw [List.getElem?_eq_none (by have := h.1; omega)]
  · rintro ⟨hr, hc⟩
    rw [getCell_of_WF h hr hc]
    simp

theorem setCell_ne_none_iff {g : Grid} (h : WF g) (r c : Nat) (v : Int) :
    setCell g r c v ≠ none ↔ r < 9 ∧ c < 9 := by
  constructor
  · intro hne
    by_contra hcon
    apply hne
    unfold setCell
    by_cases hr : r < 9
    · have hr2 : r < g.length := by have := h.1; omega
      have hlen : (g[r]).length = 9 := h.2 _ (List.getElem_mem hr2)
      rw [List.getElem?_eq_getElem hr2]
      have : ¬ c < (g[r]).length := by omega
      simp [this]
    · rw [List.getElem?_eq_none (by have := h.1; omega)]
  · rintro ⟨hr, hc⟩
    obtain ⟨g2, hset, -⟩ := setCell_of_WF h hr hc v
    rw [hset]
    simp

theorem free_iff_not_mem_units (g : Grid) {r c : Nat} (hr : r < 9) (hc : c < 9) (n : Int) :
    Free g r c n ↔
      n ∉ unitRow g r ∧ n ∉ unitColumn g c ∧ n ∉ unitBox g ((r / 3) * 3) ((c / 3) * 3) := by
  constructor
  · intro hfree
    refine ⟨?_, ?_, ?_⟩
    · intro hmem
      simp only [unitRow, List.mem_map, List.mem_range] at hmem
      obtain ⟨c2, hc2, e⟩ := hmem
      exact hfree r hr c2 hc2 (Or.inl rfl) e
    · intro hmem
      simp only [unitColumn, List.mem_map, List.mem_range] at hmem
      obtain ⟨r2, hr2, e⟩ := hmem
      exact hfree r2 hr2 c hc (Or.inr (Or.inl rfl)) e
    · intro hmem
      rw [unitBox_eq_map] at hmem
      simp only [List.mem_map] at hmem
      obtain ⟨p, hp, e⟩ := hmem
      rw [mem_range_product] at hp
      exact hfree _ (by omega) _ (by omega) (Or.inr (Or.inr ⟨by omega, by omega⟩)) e
  · rintro ⟨hrow, hcol, hbox⟩ r2 hr2 c2 hc2 hsame e
    rcases hsame with e1 | e1 | ⟨e1, e2⟩
    · subst e1
      apply hrow
      simp only [unitRow, List.mem_map, List.mem_range]
      exact ⟨c2, hc2, e⟩
    · subst e1
      apply hcol
      simp only [unitColumn, List.mem_map, List.mem_range]
      exact ⟨r2, hr2, e⟩
    · apply hbox
      rw [unitBox_eq_map]
      simp only [List.mem_map]
      refine ⟨(r2 % 3, c2 % 3), mem_range_product.2 ⟨by omega, by omega⟩, ?_⟩
      have e3 : r / 3 * 3 + r2 % 3 = r2 := by omega
      have e4 : c / 3 * 3 + c2 % 3 = c2 := by omega
      simp only [e3, e4]
      exact e

theorem allCells_sorted :
    allCells.Pairwise (fun p q => RowMajorBefore p.1 p.2 q.1 q.2) := by decide

theorem getCell_eq_zero_iff {g : Grid} (h : WF g) (r c : Nat) :
    getCell g r c = some 0 ↔ r < 9 ∧ c < 9 ∧ cell g r c = 0 := by
  constructor
  · intro e
    have hin := (getCell_ne_none_iff h r c).1 (by rw [e]; simp)
    rw [getCell_of_WF h hin.1 hin.2] at e
    injection e with e
    exact ⟨hin.1, hin.2, e⟩
  · rintro ⟨hr, hc, e⟩
    rw [getCell_of_WF h hr hc, e]

theorem findEmpty_first {g : Grid} (h : WF g) {r c : Nat}
    (hfind : findEmpty g = some (some (r, c))) :
    r < 9 ∧ c < 9 ∧ cell g r c = 0 ∧
    ∀ r2, r2 < 9 → ∀ c2, c2 < 9 → RowMajorBefore r2 c2 r c → cell g r2 c2 ≠ 0 := by
  rcases findEmptyLoop_of_WF h allCells (fun p hp => mem_allCells.1 hp) with
    ⟨h1, -⟩ | ⟨pre, r1, c1, post, h1, h2, h3, h4⟩
  · unfold findEmpty at hfind
    rw [h1] at hfind
    simp at hfind
  · unfold findEmpty at hfind
    rw [h4] at hfind
    simp only [Option.some.injEq, Prod.mk.injEq] at hfind
    obtain ⟨rfl, rfl⟩ := hfind
    have hm : (r1, c1) ∈ allCells := by rw [h1]; simp
    rw [mem_allCells] at hm
    refine ⟨hm.1, hm.2, h3, ?_⟩
    intro r2 hr2 c2 hc2 hbefore
    have hsorted := allCells_sorted
    rw [h1, List.pairwise_append, List.pairwise_cons] at hsorted
    have hm2 : (r2, c2) ∈ allCells := mem_allCells.2 ⟨hr2, hc2⟩
    rw [h1, List.mem_append, List.mem_cons] at hm2
    rcases hm2 with e | e | e
    · exact h2 (r2, c2) e
    · simp only [Prod.mk.injEq] at e
      unfold RowMajorBefore at hbefore
      omega
    · have := hsorted.2.1.1 (r2, c2) e
      unfold RowMajorBefore at this hbefore
      simp only at this
      omega

theorem countEmpty_le (g : Grid) : countEmpty g ≤ 81 := by
  unfold countEmpty
  exact le_trans (List.countP_le_length _) (by decide)

theorem tryCandidates_congr (rec1 rec2 : Grid → Option (Bool × Grid))
    (hrec : ∀ g1, WF g1 → ∀ b g2, rec1 g1 = some (b, g2) → SolveSpec g1 b g2)
    {r c : Nat} (hr : r < 9) (hc : c < 9) (nums : List Int)
    (hnums : ∀ n ∈ nums, 1 ≤ n ∧ n ≤ 9) {g : Grid} (h : WF g) (hz : cell g r c = 0)
    (hagree : ∀ g1, WF g1 → countEmpty g1 + 1 = countEmpty g → rec2 g1 = rec1 g1) :
    tryCandidates rec2 r c nums g = tryCandidates rec1 r c nums g := by
  induction nums with
  | nil => rfl
  | cons n rest ih =>
    have ih2 := ih (fun q hq => hnums q (List.mem_cons_of_mem _ hq))
    have hn := hnums n (List.mem_cons_self _ _)
    unfold tryCandidates
    rw [isValid_of_WF h hr hc n]
    by_cases hfree : Free g r c n
    · simp only [decide_eq_true hfree]
      obtain ⟨g1, hset, hwf1⟩ := setCell_of_WF h hr hc n
      have hcount := countEmpty_setCell h hwf1 hr hc hz (by omega) hset
      simp only [hset, hagree g1 hwf1 hcount]
      cases hcall : rec1 g1 with
      | none => rfl
      | some res =>
        obtain ⟨b1, g3⟩ := res
        cases b1 with
        | true => rfl
        | false =>
          have e3 : g3 = g1 := (hrec g1 hwf1 false g3 hcall).2.1 rfl
          subst e3
          obtain ⟨g4, hback, hwf4⟩ := setCell_of_WF hwf1 hr hc 0
          have e4 : g4 = g := setCell_back h hwf4 hz hset hback
          subst e4
          simp only [hback]
          exact ih2
    · simp only [decide_eq_false hfree]
      exact ih2

theorem rowLengthsOk_iff (g : Grid) :
    rowLengthsOk g = true ↔ ∀ row ∈ g, row.length = 9 := by
  induction g with
  | nil => simp [rowLengthsOk]
  | cons row rest ih =>
    by_cases hl : row.length = 9 <;> simp [rowLengthsOk, hl, ih]

theorem copyGrid_of_WF {g : Grid} (h : WF g) : copyGrid g = g := by
  unfold copyGrid
  conv_rhs => rw [← List.map_id g]
  apply List.map_congr_left
  intro row hrow
  have hl := h.2 row hrow
  rw [List.take_append_of_le_length (by omega), List.take_of_length_le (by omega)]
  rfl

theorem not_WF_iff (g : Grid) :
    ¬ WF g ↔ (g.length ≠ 9 ∨ ∃ row ∈ g, row.length ≠ 9) := by
  unfold WF
  rw [not_and_or]
  simp only [not_forall, exists_prop, ne_eq]

theorem sudokuHandlerWith_of_not_WF (validator : Grid → Option Bool)
    (solver : Grid → Option (Bool × Grid)) {g : Grid} (h : ¬ WF g) :
    sudokuHandlerWith validator solver "POST" (some g) =
      some (Response.error 400 (if g.length ≠ 9 then "La matriz debe tener exactamente 9 filas"
        else "Cada fila de la matriz debe tener exactamente 9 columnas")) := by
  unfold sudokuHandlerWith
  by_cases hl : g.length = 9
  · have hrows : ¬ rowLengthsOk g = true := fun hh => h ⟨hl, (rowLengthsOk_iff g).1 hh⟩
    simp [hl, hrows]
  · simp [hl]

theorem sudokuHandlerWith_of_WF (validator : Grid → Option Bool)
    (solver : Grid → Option (Bool × Grid)) {g : Grid} (h : WF g) :
    sudokuHandlerWith validator solver "POST" (some g) =
      match validator g with
      | none => none
      | some true =>
        some (Response.json "Validación de Sudoku completada" true "Sudoku solucionado" none)
      | some false =>
        match solver g with
        | none => none
        | some (true, solution) =>
          some (Response.json "Validación de Sudoku completada" false
            "Sudoku no solucionado, solución generada" (some solution))
        | some (false, _) =>
          some (Response.json "Validación de Sudoku completada" false
            "Sudoku no solucionado, sin solución válida" none) := by
  unfold sudokuHandlerWith
  have hrows : rowLengthsOk g = true := (rowLengthsOk_iff g).2 h.2
  simp [h.1, hrows, copyGrid_of_WF h]

/-! ## The solver returns the least completion -/

theorem candidates_sorted : candidates.Pairwise (fun a b => a < b) := by decide

theorem lexLE_of_full_extends {g s : Grid} (hfull : Full g) (hext : Extends g s) :
    LexLE g s :=
  Or.inl (fun r hr c hc => (hext r hr c hc (hfull r hr c hc)).symm)

theorem tryCandidates_least (recur : Grid → Option (Bool × Grid)) (m : Nat)
    (hrec : ∀ g1, WF g1 → ∀ b g2, recur g1 = some (b, g2) → SolveSpec g1 b g2)
    (htot : ∀ g1, WF g1 → countEmpty g1 < m → ∃ res, recur g1 = some res)
    {s : Grid} (hs : Solved s)
    (hgood : ∀ g1, WF g1 → countEmpty g1 < m → Extends g1 s →
      ∃ g2, recur g1 = some (true, g2) ∧ LexLE g2 s)
    {r c : Nat} (hr : r < 9) (hc : c < 9) (nums : List Int)
    (hnums : ∀ n ∈ nums, 1 ≤ n ∧ n ≤ 9) (hsorted : nums.Pairwise (fun a b => a < b))
    {g : Grid} (h : WF g) (hz : cell g r c = 0)
    (hfirst : ∀ r2, r2 < 9 → ∀ c2, c2 < 9 → RowMajorBefore r2 c2 r c → cell g r2 c2 ≠ 0)
    (hm : countEmpty g ≤ m) (hext : Extends g s) (hmem : cell s r c ∈ nums) :
    ∃ g2, tryCandidates recur r c nums g = some (true, g2) ∧ LexLE g2 s := by
  induction nums with
  | nil => simp at hmem
  | cons n rest ih =>
    obtain ⟨hhead, hsorted2⟩ := List.pairwise_cons.1 hsorted
    have ih2 := ih (fun q hq => hnums q (List.mem_cons_of_mem _ hq)) hsorted2
    have hn := hnums n (List.mem_cons_self _ _)
    unfold tryCandidates
    rw [isValid_of_WF h hr hc n]
    by_cases hfree : Free g r c n
    · simp only [decide_eq_true hfree]
      obtain ⟨g1, hset, hwf1⟩ := setCell_of_WF h hr hc n
      have hcount := countEmpty_setCell h hwf1 hr hc hz (by omega) hset
      obtain ⟨⟨b1, g3⟩, hcall⟩ := htot g1 hwf1 (by omega)
      have hsp := hrec g1 hwf1 b1 g3 hcall
      by_cases e : cell s r c = n
      · subst e
        obtain ⟨g5, h5, hlex⟩ := hgood g1 hwf1 (by omega) (extends_setCell hext hset)
        exact ⟨g5, by simp only [hset, h5], hlex⟩
      · have hmem2 : cell s r c ∈ rest := by
          rcases List.mem_cons.1 hmem with e2 | e2
          · exact absurd e2 e
          · exact e2
        cases b1 with
        | true =>
          refine ⟨g3, by simp only [hset, hcall], Or.inr ⟨r, c, hr, hc, ?_, ?_⟩⟩
          · have e1 : cell g1 r c = n := by rw [cell_setCell hset]; simp
            have e2 := hsp.2.2.2.1 r hr c hc (by rw [e1]; omega)
            rw [e2, e1]
            exact hhead _ hmem2
          · intro r2 hr2 c2 hc2 hbefore
            have hne := hfirst r2 hr2 c2 hc2 hbefore
            have hpos : ¬ (r2 = r ∧ c2 = c) := by
              rintro ⟨rfl, rfl⟩
              exact hne hz
            have e1 : cell g1 r2 c2 = cell g r2 c2 := by
              rw [cell_setCell hset]; simp [hpos]
            have e2 := hsp.2.2.2.1 r2 hr2 c2 hc2 (by rw [e1]; exact hne)
            rw [e2, e1, hext r2 hr2 c2 hc2 hne]
        | false =>
          have e3 : g3 = g1 := hsp.2.1 rfl
          subst e3
          obtain ⟨g4, hback, hwf4⟩ := setCell_of_WF hwf1 hr hc 0
          have e4 : g4 = g := setCell_back h hwf4 hz hset hback
          subst e4
          obtain ⟨g5, h5, hlex⟩ := ih2 hmem2
          exact ⟨g5, by simp only [hset, hcall, hback, h5], hlex⟩
    · simp only [decide_eq_false hfree]
      have hne : cell s r c ≠ n := by
        intro e
        subst e
        exact hfree (free_of_extends hs hext hr hc hz)
      have hmem2 : cell s r c ∈ rest := by
        rcases List.mem_cons.1 hmem with e | e
        · exact absurd e hne
        · exact e
      exact ih2 hmem2

theorem solveFuel_least {s : Grid} (hs : Solved s) (fuel : Nat) : ∀ g, WF g →
    countEmpty g < fuel → Extends g s →
    ∃ g2, solveFuel fuel g = some (true, g2) ∧ LexLE g2 s := by
  induction fuel with
  | zero => intro g _ hlt; omega
  | succ fuel ih =>
    intro g h hlt hext
    rcases findEmpty_of_WF h with ⟨hfind, hfull⟩ | ⟨r, c, -, -, -, hfind⟩
    · refine ⟨g, ?_, lexLE_of_full_extends hfull hext⟩
      rw [solveFuel]
      simp only [hfind]
    · obtain ⟨hr, hc, hz, hfirst⟩ := findEmpty_first h hfind
      have hd := hs.1 r hr c hc
      have hstep : solveFuel (fuel + 1) g =
          tryCandidates (solveFuel fuel) r c candidates g := by
        rw [solveFuel]
        simp only [hfind]
      rw [hstep]
      exact tryCandidates_least (solveFuel fuel) fuel (solveFuel_spec fuel)
        (solveFuel_total fuel) hs ih hr hc candidates candidates_range candidates_sorted h hz
        hfirst (by omega) hext (mem_candidates hd.1 hd.2)

/-! ## The claims of the specification -/

/-- C1: on a grid of 9 rows of 9 cells `isSudokuSolved` returns a boolean, and
it returns `true` if and only if each of the 27 units passes `isValidSet`: the
9 rows, the 9 columns, and the 9 boxes whose top-left corners are at row and
column offsets 0, 3 and 6. -/
theorem isSudokuSolved_iff_all_units (g : Grid) (h : WF g) :
    (∃ b, isSudokuSolved g = some b) ∧
    (isSudokuSolved g = some true ↔
      (∀ row ∈ g, isValidSet row = true) ∧
      (∀ c, c < 9 → isValidSet (unitColumn g c) = true) ∧
      (∀ sr ∈ [0, 3, 6], ∀ sc ∈ [0, 3, 6], isValidSet (unitBox g sr sc) = true)) := by
  refine ⟨isSudokuSolved_total h, ?_⟩
  rw [isSudokuSolved_of_WF h]
  simp only [Option.some.injEq, decide_eq_true_eq]
  constructor
  · rintro ⟨hrows, hcols, hboxes⟩
    refine ⟨?_, hcols, ?_⟩
    · intro row hmem
      obtain ⟨r, hr, rfl⟩ := (mem_rows_of_WF h row).1 hmem
      exact hrows r hr
    · intro sr hsr sc hsc
      have e1 : sr = 3 * (sr / 3) ∧ sr / 3 < 3 := by
        simp only [List.mem_cons, List.mem_singleton, List.not_mem_nil, or_false] at hsr
        omega
      have e2 : sc = 3 * (sc / 3) ∧ sc / 3 < 3 := by
        simp only [List.mem_cons, List.mem_singleton, List.not_mem_nil, or_false] at hsc
        omega
      rw [e1.1, e2.1]
      exact hboxes _ e1.2 _ e2.2
  · rintro ⟨hrows, hcols, hboxes⟩
    refine ⟨?_, hcols, ?_⟩
    · intro r hr
      exact hrows _ ((mem_rows_of_WF h _).2 ⟨r, hr, rfl⟩)
    · intro br hbr bc hbc
      apply hboxes
      · simp only [List.mem_cons, List.mem_singleton, List.not_mem_nil, or_false]
        omega
      · simp only [List.mem_cons, List.mem_singleton, List.not_mem_nil, or_false]
        omega

/-- Witness of C1 on `solvedGrid`. -/
theorem isSudokuSolved_iff_all_units_witness :
    WF solvedGrid ∧ (∃ b, isSudokuSolved solvedGrid = some b) ∧
    (isSudokuSolved solvedGrid = some true ↔
      (∀ row ∈ solvedGrid, isValidSet row = true) ∧
      (∀ c, c < 9 → isValidSet (unitColumn solvedGrid c) = true) ∧
      (∀ sr ∈ [0, 3, 6], ∀ sc ∈ [0, 3, 6], isValidSet (unitBox solvedGrid sr sc) = true)) :=
  ⟨by decide, isSudokuSolved_iff_all_units solvedGrid (by decide)⟩

/-- C2: for every list of integers `isValidSet` returns `false` if some
element lies outside [1,9] or some value occurs more than once, and `true`
otherwise, that is exactly when all elements are in [1,9] and pairwise
distinct. -/
theorem isValidSet_false_iff_out_of_range_or_repeat (nums : List Int) :
    (isValidSet nums = false ↔
      (∃ x ∈ nums, x < 1 ∨ 9 < x) ∨ (∃ x, 2 ≤ nums.count x)) ∧
    (isValidSet nums = true ↔ (∀ x ∈ nums, 1 ≤ x ∧ x ≤ 9) ∧ nums.Nodup) := by
  have key := isValidSet_iff nums
  refine ⟨?_, key⟩
  rw [← Bool.not_eq_true, key, not_and_or, List.nodup_iff_count_le_one]
  simp only [not_forall, not_and, not_le]
  constructor
  · rintro (⟨x, hx, hr⟩ | ⟨x, hx⟩)
    · exact Or.inl ⟨x, hx, by omega⟩
    · exact Or.inr ⟨x, by omega⟩
  · rintro (⟨x, hx, hr⟩ | ⟨x, hx⟩)
    · exact Or.inl ⟨x, hx, by omega⟩
    · exact Or.inr ⟨x, by omega⟩

/-- C3: for a unit of exactly 9 integers `isValidSet` returns `true` if and
only if the unit is a permutation of 1,...,9, equivalently each digit 1-9
occurs exactly once; a unit in which some value occurs twice is rejected. -/
theorem isValidSet_nine_iff_perm (nums : List Int) (hlen : nums.length = 9) :
    (isValidSet nums = true ↔ nums.Perm [1, 2, 3, 4, 5, 6, 7, 8, 9]) ∧
    (isValidSet nums = true ↔ ∀ d, 1 ≤ d → d ≤ 9 → nums.count d = 1) ∧
    (∀ d, 2 ≤ nums.count d → isValidSet nums = false) := by
  have hdig : ∀ d : Int, d ∈ [1, 2, 3, 4, 5, 6, 7, 8, 9] ↔ 1 ≤ d ∧ d ≤ 9 := by
    intro d
    simp only [List.mem_cons, List.mem_singleton, List.not_mem_nil, or_false]
    omega
  have hnd : ([1, 2, 3, 4, 5, 6, 7, 8, 9] : List Int).Nodup := by decide
  have hperm : isValidSet nums = true ↔ nums.Perm [1, 2, 3, 4, 5, 6, 7, 8, 9] := by
    rw [isValidSet_iff]
    constructor
    · rintro ⟨hrange, hnodup⟩
      have hsub : nums ⊆ [1, 2, 3, 4, 5, 6, 7, 8, 9] := fun x hx => (hdig x).2 (hrange x hx)
      exact (List.subperm_of_subset hnodup hsub).perm_of_length_le (by simp [hlen])
    · intro hp
      exact ⟨fun x hx => (hdig x).1 (hp.mem_iff.1 hx), hp.nodup_iff.2 hnd⟩
  refine ⟨hperm, ?_, ?_⟩
  · rw [hperm]
    constructor
    · intro hp d h1 h9
      rw [hp.count_eq]
      exact List.count_eq_one_of_mem hnd ((hdig d).2 ⟨h1, h9⟩)
    · intro hcount
      have hsub : [1, 2, 3, 4, 5, 6, 7, 8, 9] ⊆ nums := by
        intro d hd
        have := hcount d ((hdig d).1 hd).1 ((hdig d).1 hd).2
        exact List.count_pos_iff.1 (by omega)
      exact ((List.subperm_of_subset hnd hsub).perm_of_length_le (by simp [hlen])).symm
  · intro d hd
    rw [← Bool.not_eq_true, isValidSet_iff, List.nodup_iff_count_le_one]
    rintro ⟨-, hc⟩
    have := hc d
    omega

/-- Witness of C3 on the first row of `solvedGrid`. -/
theorem isValidSet_nine_iff_perm_witness :
    ([5, 3, 4, 6, 7, 8, 9, 1, 2] : List Int).length = 9 ∧
    isValidSet [5, 3, 4, 6, 7, 8, 9, 1, 2] = true ∧
    ([5, 3, 4, 6, 7, 8, 9, 1, 2] : List Int).Perm [1, 2, 3, 4, 5, 6, 7, 8, 9] :=
  ⟨rfl, by decide,
    (isValidSet_nine_iff_perm [5, 3, 4, 6, 7, 8, 9, 1, 2] rfl).1.1 (by decide)⟩

/-- C4: on a grid of 9 rows of 9 cells, if some cell holds a value outside
[1,9] (an empty cell, 0, included) then `isSudokuSolved` returns `false`; in
particular the grid obtained by writing 0 into any one cell is rejected. -/
theorem isSudokuSolved_false_of_cell_out_of_range (g : Grid) (h : WF g) (r c : Nat)
    (hr : r < 9) (hc : c < 9) :
    (∀ v, getCell g r c = some v → v < 1 ∨ 9 < v → isSudokuSolved g = some false) ∧
    (∃ g2, setCell g r c 0 = some g2 ∧ isSudokuSolved g2 = some false) := by
  have key : ∀ g1 : Grid, WF g1 → (cell g1 r c < 1 ∨ 9 < cell g1 r c) →
      isSudokuSolved g1 = some false := by
    intro g1 h1 hv
    apply isSudokuSolved_false_of_not_solved h1
    intro hs
    have := hs.1 r hr c hc
    omega
  refine ⟨?_, ?_⟩
  · intro v hv hout
    rw [getCell_of_WF h hr hc] at hv
    injection hv with hv
    exact key g h (by rw [hv]; exact hout)
  · obtain ⟨g2, hset, hwf2⟩ := setCell_of_WF h hr hc 0
    refine ⟨g2, hset, key g2 hwf2 ?_⟩
    rw [cell_setCell hset]
    simp

/-- Witness of C4: the cell (0,0) of `oneHoleGrid` is empty. -/
theorem isSudokuSolved_false_of_cell_out_of_range_witness :
    WF oneHoleGrid ∧ getCell oneHoleGrid 0 0 = some 0 ∧
    isSudokuSolved oneHoleGrid = some false :=
  ⟨by decide, by decide,
    (isSudokuSolved_false_of_cell_out_of_range oneHoleGrid (by decide) 0 0 (by decide)
      (by decide)).1 0 (by decide) (by decide)⟩

/-- C5: if a grid of 9 rows of 9 cells has exactly one valid completion (a
grid that agrees with it on every non-empty cell and passes `isSudokuSolved`),
then `solveSudoku` returns `true` and the grid it leaves passes
`isSudokuSolved` and is that completion.  The bound [0,9] on the cell values
that the specification assumes is not needed. -/
theorem solveSudoku_unique_completion (g s : Grid) (hg : WF g) (hs : WF s)
    (hext : Extends g s) (hsolved : isSudokuSolved s = some true)
    (huniq : ∀ s2, WF s2 → Extends g s2 → isSudokuSolved s2 = some true → s2 = s) :
    ∃ g2, solveSudoku g = some (true, g2) ∧ isSudokuSolved g2 = some true ∧ g2 = s := by
  have hS : Solved s := (isSudokuSolved_iff_solved hs).1 hsolved
  obtain ⟨g2, hres⟩ := solveSudoku_complete hg hS hext
  obtain ⟨hwf2, -, hfull, hext2, hsound⟩ := solveSudoku_spec hg hres
  have hS2 : Solved g2 :=
    solved_of_full_consistent (hfull rfl) (hsound rfl (consistent_of_extends hS hext))
  have hsolved2 := (isSudokuSolved_iff_solved hwf2).2 hS2
  exact ⟨g2, hres, hsolved2, huniq g2 hwf2 hext2 hsolved2⟩

/-- Witness of C5: `solvedGrid` is the only valid completion of
`oneHoleGrid`. -/
theorem solveSudoku_unique_completion_witness :
    WF oneHoleGrid ∧ WF solvedGrid ∧ Extends oneHoleGrid solvedGrid ∧
    isSudokuSolved solvedGrid = some true ∧
    (∀ s2, WF s2 → Extends oneHoleGrid s2 → isSudokuSolved s2 = some true → s2 = solvedGrid) ∧
    ∃ g2, solveSudoku oneHoleGrid = some (true, g2) ∧ isSudokuSolved g2 = some true ∧
      g2 = solvedGrid :=
  ⟨by decide, by decide, by decide, by decide, oneHoleGrid_unique,
    solveSudoku_unique_completion oneHoleGrid solvedGrid (by decide) (by decide) (by decide)
      (by decide) oneHoleGrid_unique⟩

/-- C6: `solveSudoku` returns `false` only when no solution exists: if a grid
of 9 rows of 9 cells has a valid completion (a grid that agrees with it on
every non-empty cell and passes `isSudokuSolved`) then `solveSudoku` returns
`true`. -/
theorem solveSudoku_true_of_completion (g s : Grid) (hg : WF g) (hs : WF s)
    (hext : Extends g s) (hsolved : isSudokuSolved s = some true) :
    ∃ g2, solveSudoku g = some (true, g2) :=
  solveSudoku_complete hg ((isSudokuSolved_iff_solved hs).1 hsolved) hext

/-- Witness of C6: `solvedGrid` completes `twoHoleGrid`. -/
theorem solveSudoku_true_of_completion_witness :
    WF twoHoleGrid ∧ WF solvedGrid ∧ Extends twoHoleGrid solvedGrid ∧
    isSudokuSolved solvedGrid = some true ∧
    ∃ g2, solveSudoku twoHoleGrid = some (true, g2) :=
  ⟨by decide, by decide, by decide, by decide,
    solveSudoku_true_of_completion twoHoleGrid solvedGrid (by decide) (by decide) (by decide)
      (by decide)⟩

/-- C7 as stated fails: row 0 of `conflictGrid` holds the digit 5 in its two
pre-filled cells (0,0) and (0,1), yet `solveSudoku` returns `true` (it places
9 in the only empty cell, (8,8), whose row, column and box hold no 9). -/
theorem solveSudoku_conflict_returns_true :
    WF conflictGrid ∧ HasConflict conflictGrid ∧
    solveSudoku conflictGrid = some (true, conflictFilled) :=
  ⟨by decide, ⟨0, 0, 0, 1, by decide, by decide, by decide, by decide, by decide⟩, by decide⟩

/-- C7, amended: on a grid of 9 rows of 9 cells in which some unit holds the
same digit 1-9 in two pre-filled cells, `solveSudoku` returns a boolean and
the grid it leaves still has that conflict, so that it does not pass
`isSudokuSolved`. -/
theorem solveSudoku_conflict_never_solved (g : Grid) (h : WF g) (hconf : HasConflict g) :
    ∃ b g2, solveSudoku g = some (b, g2) ∧ HasConflict g2 ∧
      isSudokuSolved g2 = some false := by
  obtain ⟨b, g2, hres⟩ := solveSudoku_total h
  obtain ⟨hwf2, -, -, hext2, -⟩ := solveSudoku_spec h hres
  obtain ⟨r1, c1, r2, c2, ⟨hr1, hc1, hr2, hc2⟩, hne, hsame, hd, heq⟩ := hconf
  have e1 : cell g2 r1 c1 = cell g r1 c1 := hext2 r1 hr1 c1 hc1 (by omega)
  have e2 : cell g2 r2 c2 = cell g r2 c2 := hext2 r2 hr2 c2 hc2 (by omega)
  have hconf2 : HasConflict g2 :=
    ⟨r1, c1, r2, c2, ⟨hr1, hc1, hr2, hc2⟩, hne, hsame, by rw [e1]; exact hd, by rw [e1, e2, heq]⟩
  exact ⟨b, g2, hres, hconf2,
    isSudokuSolved_false_of_not_solved hwf2 (not_solved_of_hasConflict hconf2)⟩

/-- Witness of the amended C7 on `conflictGrid`. -/
theorem solveSudoku_conflict_never_solved_witness :
    WF conflictGrid ∧ HasConflict conflictGrid ∧
    ∃ b g2, solveSudoku conflictGrid = some (b, g2) ∧ HasConflict g2 ∧
      isSudokuSolved g2 = some false :=
  ⟨by decide, ⟨0, 0, 0, 1, by decide, by decide, by decide, by decide, by decide⟩,
    solveSudoku_conflict_never_solved conflictGrid (by decide)
      ⟨0, 0, 0, 1, by decide, by decide, by decide, by decide, by decide⟩⟩

/-- C8: on a grid of 9 rows of 9 cells `solveSudoku` returns a boolean, and
whenever it returns `false` the grid after the call equals the grid before
the call. -/
theorem solveSudoku_false_restores (g : Grid) (h : WF g) :
    (∃ b g2, solveSudoku g = some (b, g2)) ∧
    ∀ g2, solveSudoku g = some (false, g2) → g2 = g :=
  ⟨solveSudoku_total h, fun _ hres => (solveSudoku_spec h hres).2.1 rfl⟩

/-- Witness of C8: on `deadEndGrid` the solver places 5 at (0,0), fails at
(8,8), backtracks and returns `false` with the grid as it was. -/
theorem solveSudoku_false_restores_witness :
    WF deadEndGrid ∧ solveSudoku deadEndGrid = some (false, deadEndGrid) ∧
    ∀ g2, solveSudoku deadEndGrid = some (false, g2) → g2 = deadEndGrid :=
  ⟨by decide, by decide, (solveSudoku_false_restores deadEndGrid (by decide)).2⟩

/-- C9: the solver never returns a partial grid: on a grid of 9 rows of 9
cells, whenever `solveSudoku` returns `true` the grid it leaves has 9 rows of
9 cells and none of them is 0. -/
theorem solveSudoku_true_no_empty (g : Grid) (h : WF g) (g2 : Grid)
    (hres : solveSudoku g = some (true, g2)) : WF g2 ∧ ∀ row ∈ g2, (0 : Int) ∉ row := by
  obtain ⟨hwf2, -, hfull, -, -⟩ := solveSudoku_spec h hres
  exact ⟨hwf2, (full_iff_rows hwf2).1 (hfull rfl)⟩

/-- Witness of C9 on `twoHoleGrid`. -/
theorem solveSudoku_true_no_empty_witness :
    WF twoHoleGrid ∧ solveSudoku twoHoleGrid = some (true, solvedGrid) ∧
    WF solvedGrid ∧ ∀ row ∈ solvedGrid, (0 : Int) ∉ row :=
  ⟨by decide, by decide,
    solveSudoku_true_no_empty twoHoleGrid (by decide) solvedGrid (by decide)⟩

/-- C10: on a grid of 9 rows of 9 cells without empty cell, whether it is a
valid solution or not, `findEmpty` finds nothing and `solveSudoku` returns
`true` with the grid unchanged; it does so at recursion depth 1, that is
without a recursive call (a recursive call at depth 0 would leave no
result). -/
theorem solveSudoku_full_immediate (g : Grid) (h : WF g)
    (hfull : ∀ row ∈ g, (0 : Int) ∉ row) :
    findEmpty g = some none ∧ solveFuel 1 g = some (true, g) ∧
    solveSudoku g = some (true, g) := by
  have hF : Full g := (full_iff_rows h).2 hfull
  have hfind : findEmpty g = some none := by
    rcases findEmpty_of_WF h with ⟨hfind, -⟩ | ⟨r, c, hr, hc, hz, -⟩
    · exact hfind
    · exact absurd hz (hF r hr c hc)
  have h1 : solveFuel 1 g = some (true, g) := by
    unfold solveFuel
    simp only [hfind]
  exact ⟨hfind, h1, solveFuel_mono (by omega) h1⟩

/-- Witness of C10 on `allFives`, a grid without empty cell that is not a
solution. -/
theorem solveSudoku_full_immediate_witness :
    WF allFives ∧ (∀ row ∈ allFives, (0 : Int) ∉ row) ∧
    isSudokuSolved allFives = some false ∧ findEmpty allFives = some none ∧
    solveFuel 1 allFives = some (true, allFives) ∧
    solveSudoku allFives = some (true, allFives) :=
  ⟨by decide, by decide, by decide,
    solveSudoku_full_immediate allFives (by decide) (by decide)⟩

/-- C11: on the all-zero grid `solveSudoku` returns `true` and the grid it
leaves passes `isSudokuSolved`. -/
theorem solveSudoku_emptyGrid :
    ∃ g2, solveSudoku emptyGrid = some (true, g2) ∧ isSudokuSolved g2 = some true := by
  have hS : Solved solvedGrid := (isSudokuSolved_iff_solved (by decide)).1 (by decide)
  have hext : Extends emptyGrid solvedGrid := by decide
  obtain ⟨g2, hres, hwf2, hS2, -⟩ := solveSudoku_of_completion (by decide) hS hext
  exact ⟨g2, hres, (isSudokuSolved_iff_solved hwf2).2 hS2⟩

/-- C13: on an input of exactly 9 rows of exactly 9 integers, whatever their
values, an index expression `sudoku[row][col]` faults exactly when `row` or
`col` is outside 0..8, and neither `isSudokuSolved` nor `solveSudoku` faults:
each returns a boolean (a fault at any grid access would leave no result), and
the solver leaves a grid of 9 rows of 9 cells. -/
theorem no_fault_on_nine_by_nine (g : Grid) (h : WF g) :
    (∀ r c, getCell g r c ≠ none ↔ r < 9 ∧ c < 9) ∧
    (∀ r c v, setCell g r c v ≠ none ↔ r < 9 ∧ c < 9) ∧
    (∃ b, isSudokuSolved g = some b) ∧
    (∃ b g2, solveSudoku g = some (b, g2) ∧ WF g2) := by
  refine ⟨getCell_ne_none_iff h, setCell_ne_none_iff h, isSudokuSolved_total h, ?_⟩
  obtain ⟨b, g2, hres⟩ := solveSudoku_total h
  exact ⟨b, g2, hres, (solveSudoku_spec h hres).1⟩

/-- Witness of C13 on a grid whose values lie far outside [0,9]. -/
theorem no_fault_on_nine_by_nine_witness :
    WF (List.replicate 9 (List.replicate 9 (-1000000))) ∧
    (∃ b, isSudokuSolved (List.replicate 9 (List.replicate 9 (-1000000))) = some b) ∧
    (∃ b g2, solveSudoku (List.replicate 9 (List.replicate 9 (-1000000))) = some (b, g2) ∧
      WF g2) :=
  ⟨by decide,
    (no_fault_on_nine_by_nine (List.replicate 9 (List.replicate 9 (-1000000)))
      (by decide)).2.2⟩

/-- C15: on a grid of 9 rows of 9 cells, for every position with row and
column in 0..8 and every integer `num`, `isValid` returns `true` if and only
if `num` occurs in none of the 9 cells of the row, none of the 9 cells of the
column and none of the 9 cells of the box with top-left corner
`((row/3)*3, (col/3)*3)`. -/
theorem isValid_iff_not_in_units (g : Grid) (h : WF g) (row col : Nat) (hr : row < 9)
    (hc : col < 9) (num : Int) :
    isValid g row col num =
      some (decide (num ∉ unitRow g row ∧ num ∉ unitColumn g col ∧
        num ∉ unitBox g ((row / 3) * 3) ((col / 3) * 3))) := by
  rw [isValid_of_WF h hr hc num]
  congr 1
  exact decide_eq_decide.2 (free_iff_not_mem_units g hr hc num)

/-- Witness of C15 at the empty cell of `oneHoleGrid`: 5 may be placed, 3
(already in row 0) may not. -/
theorem isValid_iff_not_in_units_witness :
    WF oneHoleGrid ∧ isValid oneHoleGrid 0 0 5 = some true ∧
    isValid oneHoleGrid 0 0 3 = some false ∧
    isValid oneHoleGrid 0 0 5 =
      some (decide ((5 : Int) ∉ unitRow oneHoleGrid 0 ∧ (5 : Int) ∉ unitColumn oneHoleGrid 0 ∧
        (5 : Int) ∉ unitBox oneHoleGrid ((0 / 3) * 3) ((0 / 3) * 3))) :=
  ⟨by decide, by decide, by decide,
    isValid_iff_not_in_units oneHoleGrid (by decide) 0 0 (by decide) (by decide) 5⟩

/-- C18: soundness under consistent input: on a grid of 9 rows of 9 cells with
values in [0,9] in which no two populated cells of a row, column or box hold
the same digit, if `solveSudoku` returns `true` then the grid it leaves passes
`isSudokuSolved`. -/
theorem solveSudoku_sound (g : Grid) (h : WF g)
    (hrange : ∀ r, r < 9 → ∀ c, c < 9 → 0 ≤ cell g r c ∧ cell g r c ≤ 9)
    (hdistinct : ∀ r1, r1 < 9 → ∀ c1, c1 < 9 → ∀ r2, r2 < 9 → ∀ c2, c2 < 9 →
      SameUnit r1 c1 r2 c2 → cell g r1 c1 ≠ 0 → cell g r1 c1 = cell g r2 c2 →
      r1 = r2 ∧ c1 = c2)
    (g2 : Grid) (hres : solveSudoku g = some (true, g2)) :
    isSudokuSolved g2 = some true := by
  have hcons : Consistent g := by
    refine ⟨?_, hdistinct⟩
    intro r hr c hc hne
    have := hrange r hr c hc
    omega
  obtain ⟨hwf2, -, hfull, -, hsound⟩ := solveSudoku_spec h hres
  exact (isSudokuSolved_iff_solved hwf2).2
    (solved_of_full_consistent (hfull rfl) (hsound rfl hcons))

/-- Witness of C18 on `twoHoleGrid`. -/
theorem solveSudoku_sound_witness :
    WF twoHoleGrid ∧ solveSudoku twoHoleGrid = some (true, solvedGrid) ∧
    isSudokuSolved solvedGrid = some true :=
  ⟨by decide, by decide,
    solveSudoku_sound twoHoleGrid (by decide) (by decide)
      (show Consistent twoHoleGrid by decide).2 solvedGrid (by decide)⟩

/-- C19: `solveSudoku` leaves every pre-filled cell as it was: on a grid of 9
rows of 9 cells, a cell that holds a non-zero value before the call holds the
same value after the call, whether the call returns `true` or `false`. -/
theorem solveSudoku_keeps_filled_cells (g : Grid) (h : WF g) (b : Bool) (g2 : Grid)
    (hres : solveSudoku g = some (b, g2)) (r c : Nat) (hr : r < 9) (hc : c < 9) (v : Int)
    (hv : getCell g r c = some v) (hne : v ≠ 0) : getCell g2 r c = some v := by
  obtain ⟨hwf2, -, -, hext, -⟩ := solveSudoku_spec h hres
  rw [getCell_of_WF h hr hc] at hv
  injection hv with hv
  rw [getCell_of_WF hwf2 hr hc, hext r hr c hc (by rw [hv]; exact hne), hv]

/-- Witness of C19: the cell (4,4) of `twoHoleGrid` holds 5 before and after
the call. -/
theorem solveSudoku_keeps_filled_cells_witness :
    WF twoHoleGrid ∧ solveSudoku twoHoleGrid = some (true, solvedGrid) ∧
    getCell twoHoleGrid 4 4 = some 5 ∧ getCell solvedGrid 4 4 = some 5 :=
  ⟨by decide, by decide, by decide,
    solveSudoku_keeps_filled_cells twoHoleGrid (by decide) true solvedGrid (by decide) 4 4
      (by decide) (by decide) 5 (by decide) (by decide)⟩

/-- C12: `solveSudoku` terminates on every grid of 9 rows of 9 cells.  The
grid has at most 81 empty cells; a recursion depth of one call more than the
number of empty cells yields the result, and any larger depth yields the same
result.  A recursive call is made on the grid in which the first empty cell
has been filled, which has exactly one empty cell fewer, and the call depends
on its recursive calls only through grids of that kind.  `isSudokuSolved`
returns a boolean as well. -/
theorem solveSudoku_terminates (g : Grid) (h : WF g) :
    countEmpty g ≤ 81 ∧
    (∃ res, solveSudoku g = some res ∧
      ∀ fuel, countEmpty g + 1 ≤ fuel → solveFuel fuel g = some res) ∧
    (∀ r c, findEmpty g = some (some (r, c)) → ∀ num ∈ candidates, ∀ placed,
      setCell g r c num = some placed → countEmpty placed + 1 = countEmpty g) ∧
    (∀ fuel recur r c, findEmpty g = some (some (r, c)) →
      (∀ g1, WF g1 → countEmpty g1 + 1 = countEmpty g → recur g1 = solveFuel fuel g1) →
      tryCandidates recur r c candidates g = solveFuel (fuel + 1) g) ∧
    (∃ b, isSudokuSolved g = some b) := by
  refine ⟨countEmpty_le g, ?_, ?_, ?_, isSudokuSolved_total h⟩
  · obtain ⟨res, hres⟩ := solveFuel_total (countEmpty g + 1) g h (by omega)
    exact ⟨res, hres, fun fuel hle => solveFuel_mono hle hres⟩
  · intro r c hfind num hnum placed hset
    obtain ⟨hr, hc, hz, -⟩ := findEmpty_first h hfind
    obtain ⟨g1, hset1, hwf1⟩ := setCell_of_WF h hr hc num
    rw [hset1] at hset
    injection hset with hset
    subst hset
    have hn := candidates_range num hnum
    exact countEmpty_setCell h hwf1 hr hc hz (by omega) hset1
  · intro fuel recur r c hfind hagree
    obtain ⟨hr, hc, hz, -⟩ := findEmpty_first h hfind
    have hstep : solveFuel (fuel + 1) g = tryCandidates (solveFuel fuel) r c candidates g := by
      rw [solveFuel]
      simp only [hfind]
    rw [hstep]
    exact tryCandidates_congr (solveFuel fuel) recur (solveFuel_spec fuel) hr hc candidates
      candidates_range h hz hagree

/-- Witness of C12 on `twoHoleGrid`: two empty cells, depth 3 gives the
result and depth 2 does not. -/
theorem solveSudoku_terminates_witness :
    WF twoHoleGrid ∧ countEmpty twoHoleGrid = 2 ∧
    solveFuel 3 twoHoleGrid = some (true, solvedGrid) ∧ solveFuel 2 twoHoleGrid = none ∧
    ∃ res, solveSudoku twoHoleGrid = some res ∧
      ∀ fuel, countEmpty twoHoleGrid + 1 ≤ fuel → solveFuel fuel twoHoleGrid = some res :=
  ⟨by decide, by decide, by decide, by decide,
    (solveSudoku_terminates twoHoleGrid (by decide)).2.1⟩

/-- C14: on a grid of 9 rows of 9 cells `findEmpty` returns a result; it
reports "found" if and only if some cell is 0, and the position it returns is
the first 0 cell in row-major order: that cell is 0 and every cell in an
earlier row, or in the same row at a smaller column, is not 0. -/
theorem findEmpty_first_in_row_major_order (g : Grid) (h : WF g) :
    (∃ res, findEmpty g = some res) ∧
    ((∃ r c, findEmpty g = some (some (r, c))) ↔ ∃ r c, getCell g r c = some 0) ∧
    (∀ r c, findEmpty g = some (some (r, c)) ↔
      (getCell g r c = some 0 ∧
        ∀ r2 c2, RowMajorBefore r2 c2 r c → getCell g r2 c2 ≠ some 0)) := by
  have hpos : ∀ r c, findEmpty g = some (some (r, c)) ↔
      (getCell g r c = some 0 ∧
        ∀ r2 c2, RowMajorBefore r2 c2 r c → getCell g r2 c2 ≠ some 0) := by
    intro r c
    constructor
    · intro hfind
      obtain ⟨hr, hc, hz, hfirst⟩ := findEmpty_first h hfind
      refine ⟨(getCell_eq_zero_iff h r c).2 ⟨hr, hc, hz⟩, ?_⟩
      intro r2 c2 hbefore e
      obtain ⟨hr2, hc2, hz2⟩ := (getCell_eq_zero_iff h r2 c2).1 e
      exact hfirst r2 hr2 c2 hc2 hbefore hz2
    · rintro ⟨hz, hfirst⟩
      obtain ⟨hr, hc, hz1⟩ := (getCell_eq_zero_iff h r c).1 hz
      rcases findEmpty_of_WF h with ⟨-, hfull⟩ | ⟨r1, c1, -, -, -, hfind⟩
      · exact absurd hz1 (hfull r hr c hc)
      · obtain ⟨hr1, hc1, hz2, hfirst1⟩ := findEmpty_first h hfind
        have n1 : ¬ RowMajorBefore r1 c1 r c := fun hb =>
          hfirst r1 c1 hb ((getCell_eq_zero_iff h r1 c1).2 ⟨hr1, hc1, hz2⟩)
        have n2 : ¬ RowMajorBefore r c r1 c1 := fun hb => hfirst1 r hr c hc hb hz1
        unfold RowMajorBefore at n1 n2
        have e1 : r1 = r := by omega
        have e2 : c1 = c := by omega
        rw [hfind, e1, e2]
  refine ⟨?_, ?_, hpos⟩
  · rcases findEmpty_of_WF h with ⟨hfind, -⟩ | ⟨r1, c1, -, -, -, hfind⟩
    · exact ⟨_, hfind⟩
    · exact ⟨_, hfind⟩
  · constructor
    · rintro ⟨r, c, hfind⟩
      exact ⟨r, c, ((hpos r c).1 hfind).1⟩
    · rintro ⟨r, c, hz⟩
      obtain ⟨hr, hc, hz1⟩ := (getCell_eq_zero_iff h r c).1 hz
      rcases findEmpty_of_WF h with ⟨-, hfull⟩ | ⟨r1, c1, -, -, -, hfind⟩
      · exact absurd hz1 (hfull r hr c hc)
      · exact ⟨r1, c1, hfind⟩

/-- Witness of C14: on `deadEndGrid`, whose empty cells are (0,0) and (8,8),
`findEmpty` returns (0,0); on `solvedGrid` it finds nothing; on
`conflictGrid` it returns (8,8), and the 80 cells before it are not 0. -/
theorem findEmpty_first_in_row_major_order_witness :
    WF conflictGrid ∧ findEmpty deadEndGrid = some (some (0, 0)) ∧
    getCell deadEndGrid 8 8 = some 0 ∧ findEmpty solvedGrid = some none ∧
    findEmpty conflictGrid = some (some (8, 8)) ∧
    (getCell conflictGrid 8 8 = some 0 ∧
      ∀ r2 c2, RowMajorBefore r2 c2 8 8 → getCell conflictGrid r2 c2 ≠ some 0) :=
  ⟨by decide, by decide, by decide, by decide, by decide,
    ((findEmpty_first_in_row_major_order conflictGrid (by decide)).2.2 8 8).1 (by decide)⟩

/-- C16: for a POST request whose body was decoded, `sudokuHandler` answers
with a 400 client error if and only if the row count is not 9 or some row's
length is not 9, and that answer is the same whatever the validator and the
solver are (they are not called).  Hence the validator and the solver are only
ever invoked on a grid of 9 rows of 9 cells: replacing them by functions that
agree with them on such grids never changes the response. -/
theorem sudokuHandler_rejects_iff_wrong_size (sudoku : Grid) :
    ((∃ msg, sudokuHandler "POST" (some sudoku) = some (Response.error 400 msg)) ↔
      (sudoku.length ≠ 9 ∨ ∃ row ∈ sudoku, row.length ≠ 9)) ∧
    ((sudoku.length ≠ 9 ∨ ∃ row ∈ sudoku, row.length ≠ 9) →
      ∀ validator solver, sudokuHandlerWith validator solver "POST" (some sudoku) =
        sudokuHandler "POST" (some sudoku)) ∧
    (∀ validator solver, (∀ g, WF g → validator g = isSudokuSolved g) →
      (∀ g, WF g → solver g = solveSudoku g) →
      sudokuHandlerWith validator solver "POST" (some sudoku) =
        sudokuHandler "POST" (some sudoku)) := by
  refine ⟨?_, ?_, ?_⟩
  · rw [← not_WF_iff]
    constructor
    · rintro ⟨msg, hmsg⟩ hwf
      unfold sudokuHandler at hmsg
      rw [sudokuHandlerWith_of_WF _ _ hwf] at hmsg
      obtain ⟨b, hb⟩ := isSudokuSolved_total hwf
      obtain ⟨b2, g2, hres⟩ := solveSudoku_total hwf
      rw [hb] at hmsg
      cases b with
      | true => simp at hmsg
      | false =>
        rw [hres] at hmsg
        cases b2 <;> simp at hmsg
    · intro hn
      exact ⟨_, sudokuHandlerWith_of_not_WF _ _ hn⟩
  · intro hn validator solver
    rw [← not_WF_iff] at hn
    unfold sudokuHandler
    rw [sudokuHandlerWith_of_not_WF _ _ hn, sudokuHandlerWith_of_not_WF _ _ hn]
  · intro validator solver hv hs
    unfold sudokuHandler
    by_cases hwf : WF sudoku
    · rw [sudokuHandlerWith_of_WF _ _ hwf, sudokuHandlerWith_of_WF _ _ hwf, hv _ hwf,
        hs _ hwf]
    · rw [sudokuHandlerWith_of_not_WF _ _ hwf, sudokuHandlerWith_of_not_WF _ _ hwf]

/-- Witness of C16: a body of 5 rows is rejected, also when the validator and
the solver are functions that always fault. -/
theorem sudokuHandler_rejects_iff_wrong_size_witness :
    sudokuHandler "POST" (some (List.replicate 5 (List.replicate 9 0))) =
      some (Response.error 400 "La matriz debe tener exactamente 9 filas") ∧
    sudokuHandlerWith (fun _ => none) (fun _ => none) "POST"
        (some (List.replicate 5 (List.replicate 9 0))) =
      sudokuHandler "POST" (some (List.replicate 5 (List.replicate 9 0))) :=
  ⟨by decide,
    (sudokuHandler_rejects_iff_wrong_size (List.replicate 5 (List.replicate 9 0))).2.1
      (Or.inl (by decide)) (fun _ => none) (fun _ => none)⟩

/-- C17: for a grid of 9 rows of 9 cells posted to `sudokuHandler`, the
response is a JSON object with the boolean `solved`, equal to
`isSudokuSolved(input)`, and a status string.  It carries a solution if and
only if `isSudokuSolved` is `false` and `solveSudoku` returns `true`, and the
solution is then the grid `solveSudoku` leaves; when the solver returns
`false` the status is "Sudoku no solucionado, sin solución válida" and there
is no solution. -/
theorem sudokuHandler_response (g : Grid) (h : WF g) :
    ∃ solved status solution,
      sudokuHandler "POST" (some g) =
        some (Response.json "Validación de Sudoku completada" solved status solution) ∧
      isSudokuSolved g = some solved ∧
      (solved = true → status = "Sudoku solucionado" ∧ solution = none) ∧
      (solved = false → ∃ found g2, solveSudoku g = some (found, g2) ∧
        (found = true →
          status = "Sudoku no solucionado, solución generada" ∧ solution = some g2) ∧
        (found = false →
          status = "Sudoku no solucionado, sin solución válida" ∧ solution = none)) ∧
      (solution ≠ none ↔ solved = false ∧ ∃ g2, solveSudoku g = some (true, g2)) := by
  obtain ⟨b, hb⟩ := isSudokuSolved_total h
  obtain ⟨b2, g2, hres⟩ := solveSudoku_total h
  have hresp := sudokuHandlerWith_of_WF isSudokuSolved solveSudoku h
  rw [hb] at hresp
  cases b with
  | true =>
    refine ⟨true, "Sudoku solucionado", none, hresp, hb, fun _ => ⟨rfl, rfl⟩, ?_, ?_⟩
    · intro e; exact absurd e (by simp)
    · simp
  | false =>
    rw [hres] at hresp
    cases b2 with
    | true =>
      refine ⟨false, "Sudoku no solucionado, solución generada", some g2, hresp, hb, ?_, ?_, ?_⟩
      · intro e; exact absurd e (by simp)
      · intro _
        exact ⟨true, g2, hres, fun _ => ⟨rfl, rfl⟩, fun e => absurd e (by simp)⟩
      · simp only [ne_eq, reduceCtorEq, not_false_eq_true, true_and, true_iff]
        exact ⟨g2, hres⟩
    | false =>
      refine ⟨false, "Sudoku no solucionado, sin solución válida", none, hresp, hb, ?_, ?_, ?_⟩
      · intro e; exact absurd e (by simp)
      · intro _
        exact ⟨false, g2, hres, fun e => absurd e (by simp), fun _ => ⟨rfl, rfl⟩⟩
      · simp only [ne_eq, not_true_eq_false, true_and, false_iff, not_exists]
        intro g3 h3
        rw [hres] at h3
        simp at h3

/-- Witness of C17 on `deadEndGrid`, which the solver cannot complete. -/
theorem sudokuHandler_response_witness :
    WF deadEndGrid ∧
    sudokuHandler "POST" (some deadEndGrid) =
      some (Response.json "Validación de Sudoku completada" false
        "Sudoku no solucionado, sin solución válida" none) ∧
    sudokuHandler "POST" (some twoHoleGrid) =
      some (Response.json "Validación de Sudoku completada" false
        "Sudoku no solucionado, solución generada" (some solvedGrid)) ∧
    ∃ solved status solution,
      sudokuHandler "POST" (some deadEndGrid) =
        some (Response.json "Validación de Sudoku completada" solved status solution) ∧
      isSudokuSolved deadEndGrid = some solved ∧
      (solved = true → status = "Sudoku solucionado" ∧ solution = none) ∧
      (solved = false → ∃ found g2, solveSudoku deadEndGrid = some (found, g2) ∧
        (found = true →
          status = "Sudoku no solucionado, solución generada" ∧ solution = some g2) ∧
        (found = false →
          status = "Sudoku no solucionado, sin solución válida" ∧ solution = none)) ∧
      (solution ≠ none ↔ solved = false ∧ ∃ g2, solveSudoku deadEndGrid = some (true, g2)) :=
  ⟨by decide, by decide, by decide, sudokuHandler_response deadEndGrid (by decide)⟩

/-- C20: on a grid of 9 rows of 9 cells that has a valid completion,
`solveSudoku` returns `true` and the grid it leaves is the least valid
completion in the lexicographic order of the cells taken in row-major order:
it is a valid completion, and it is at most every valid completion `s`. -/
theorem solveSudoku_least_completion (g s : Grid) (hg : WF g) (hs : WF s)
    (hext : Extends g s) (hsolved : isSudokuSolved s = some true) :
    ∃ g2, solveSudoku g = some (true, g2) ∧ WF g2 ∧ Extends g g2 ∧
      isSudokuSolved g2 = some true ∧ LexLE g2 s := by
  have hS : Solved s := (isSudokuSolved_iff_solved hs).1 hsolved
  obtain ⟨g2, hres, hlex⟩ := solveFuel_least hS (countEmpty g + 1) g hg (by omega) hext
  obtain ⟨g3, hres3, hwf3, hS3, hext3⟩ := solveSudoku_of_completion hg hS hext
  have e : g3 = g2 := by
    unfold solveSudoku at hres3
    rw [hres] at hres3
    simp only [Option.some.injEq, Prod.mk.injEq, true_and] at hres3
    exact hres3.symm
  subst e
  exact ⟨g3, hres3, hwf3, hext3, (isSudokuSolved_iff_solved hwf3).2 hS3, hlex⟩

/-- Witness of C20: `fourHoleGrid` has the two valid completions `solvedGrid`
and `swappedGrid`, which first differ at (3,5), where they hold 1 and 3; the
solver leaves `solvedGrid`. -/
theorem solveSudoku_least_completion_witness :
    WF fourHoleGrid ∧ WF swappedGrid ∧ Extends fourHoleGrid swappedGrid ∧
    isSudokuSolved swappedGrid = some true ∧
    solveSudoku fourHoleGrid = some (true, solvedGrid) ∧
    ∃ g2, solveSudoku fourHoleGrid = some (true, g2) ∧ WF g2 ∧ Extends fourHoleGrid g2 ∧
      isSudokuSolved g2 = some true ∧ LexLE g2 swappedGrid :=
  ⟨by decide, by decide, by decide, by decide, by decide,
    solveSudoku_least_completion fourHoleGrid swappedGrid (by decide) (by decide) (by decide)
      (by decide)⟩

end SudokuSolver
